import Mathlib

/-!
Verification of the snapshot diff and classification engine of the
`operating-system-audit` repository (Go package `internal/diff`:
`ndjson.go` / `classify.go`).

The Go code is shallowly embedded:

* a decoded JSON value (`any` after `encoding/json.Unmarshal`) is the
  inductive `JVal`; JSON numbers (Go `float64`) are modelled as exact
  rationals, which agrees with Go on every integer-valued field and on
  the comparisons/divisions the engine performs on realistic inputs;
* a Go `map[string]T` is an association list with distinct keys, built
  by `upsert` (update-in-place-or-append, matching Go map content);
* Go map *iteration order* is unspecified, so every `for k := range m`
  site takes its iteration sequence from an explicit `Iter` oracle.
  A valid oracle returns a permutation of the association list; the
  identity oracle `idIter` is the canonical (insertion-order) run.
* `fmt.Println` / `fmt.Printf "...\n"` output is modelled as a list of
  lines (each printed line is one list element).
-/

/-- An exact rational standing for a Go `float64`, with fully
structural arithmetic so that every engine computation reduces in the
kernel.  `den` is kept positive by the smart constructors below; the
engine never divides by a value it has not checked against zero.
Comparisons are by cross-multiplication, sound for non-negative
denominators. -/
structure Q where
  num : Int
  den : Nat
deriving DecidableEq

/-- Numeric literals denote integers. -/
instance (n : Nat) : OfNat Q n := ⟨⟨n, 1⟩⟩

instance : Neg Q := ⟨fun q => ⟨-q.num, q.den⟩⟩

/-- An integer as a rational. -/
def Qi (n : Int) : Q := ⟨n, 1⟩

/-- A fraction literal (denominator expected positive). -/
def Qd (n : Int) (d : Nat) : Q := ⟨n, d⟩

/-- The Go float comparison `x == 0`. -/
def Q.isZero (q : Q) : Bool := q.num == 0

/-- Subtraction. -/
def Q.sub (a b : Q) : Q := ⟨a.num * b.den - b.num * a.den, a.den * b.den⟩

/-- Multiplication. -/
def Q.mul (a b : Q) : Q := ⟨a.num * b.num, a.den * b.den⟩

/-- Division (the divisor sign is folded into the numerator). -/
def Q.div (a b : Q) : Q :=
  ⟨a.num * b.den * (if b.num < 0 then -1 else 1), a.den * b.num.natAbs⟩

/-- Go `math.Abs`. -/
def Q.abs (q : Q) : Q := ⟨q.num.natAbs, q.den⟩

/-- The Go float comparison `a <= b` (cross-multiplication). -/
def Q.ble (a b : Q) : Bool := a.num * b.den ≤ b.num * a.den

/-- The Go float comparison `a < b` (cross-multiplication). -/
def Q.blt (a b : Q) : Bool := a.num * b.den < b.num * a.den

/-- Floor (used by timestamp rendering and fixed-point formatting). -/
def Q.floor (q : Q) : Int := q.num.fdiv q.den

/-- A decoded JSON value (`any` holding the result of `json.Unmarshal`).
`num` carries an exact rational standing for the Go `float64`. -/
inductive JVal where
  | null : JVal
  | bool (b : Bool) : JVal
  | num (q : Q) : JVal
  | str (s : String) : JVal
  | arr (xs : List JVal) : JVal
  | obj (fs : List (String × JVal)) : JVal

/-- A Go `Row = map[string]any`, modelled as an association list. -/
abbrev Row := List (String × JVal)

/-- Go `row[key]`: a missing key yields the `nil` interface, which is
identified with JSON null. -/
def jget (r : Row) (k : String) : JVal :=
  match r.lookup k with
  | some v => v
  | none => JVal.null

/-- Go `_, ok := row[key]` (key presence, regardless of the value). -/
def hasKey (r : Row) (k : String) : Bool :=
  (r.lookup k).isSome

/-- Go map assignment `m[k] = v`: update in place if present, else append.
This preserves a canonical insertion order for the map content. -/
def upsert {κ ν : Type} [DecidableEq κ] (m : List (κ × ν)) (k : κ) (v : ν) :
    List (κ × ν) :=
  match m with
  | [] => [(k, v)]
  | (k', v') :: t => if k' = k then (k, v) :: t else (k', v') :: upsert t k v

/-- Go set insertion `s[a] = struct{}{}` on a `map[T]struct{}`,
keeping first-occurrence order. -/
def insSet {α : Type} [BEq α] (s : List α) (a : α) : List α :=
  if s.contains a then s else s ++ [a]

/-- Go `int(x)` on a `float64`: truncation toward zero. -/
def truncQ (q : Q) : Int :=
  q.num.tdiv q.den

/-- Go `fmt.Sscanf(k, "%d", &c)`: skip leading whitespace, optional
sign, then a non-empty run of decimal digits; trailing characters are
ignored.  Returns `none` when no digit is found.  (Values beyond the Go
`int` range would make `Sscanf` fail; overflow is not modelled.) -/
def parseGoInt (s : String) : Option Int :=
  let cs := s.data.dropWhile (fun c => c.isWhitespace)
  match cs with
  | '-' :: rest => (digitsVal rest).map (fun n => -(n : Int))
  | '+' :: rest => (digitsVal rest).map (fun n => (n : Int))
  | _ => (digitsVal cs).map (fun n => (n : Int))
where
  /-- value of the leading decimal-digit run, `none` if there is none. -/
  digitsVal (cs : List Char) : Option Nat :=
    let ds := cs.takeWhile (fun c => c.isDigit)
    if ds.isEmpty then none
    else some (ds.foldl (fun acc c => acc * 10 + (c.toNat - '0'.toNat)) 0)

/-- Go `strings.HasPrefix s pre`. -/
def hasPrefixGo (s p : String) : Bool :=
  p.data.isPrefixOf s.data

/-- Go `strings.TrimSuffix s suf` (structural, so it reduces in the
kernel). -/
def trimSuffixGo (s suf : String) : String :=
  if suf.data.isSuffixOf s.data then
    String.mk (s.data.take (s.data.length - suf.data.length))
  else s

/-- `toFloat64` from `ndjson.go`: numbers pass through, anything else
(including `nil`) coerces to `0`. -/
def toFloat64 (v : JVal) : Q :=
  match v with
  | JVal.num x => x
  | _ => 0

/-- `toInt` from `ndjson.go`: numbers are truncated, anything else
(including `nil`) coerces to `0`. -/
def toInt (v : JVal) : Int :=
  match v with
  | JVal.num x => truncQ x
  | _ => 0

/-- `toBool` from `ndjson.go`. -/
def toBool (v : JVal) : Bool :=
  match v with
  | JVal.bool x => x
  | JVal.num x => !(Q.isZero x)
  | _ => false

/-- `getMap` from `ndjson.go`: `row[key].(map[string]any)` with a failed
assertion (or missing key / nil row) yielding the empty map. -/
def getMapGo (r : Row) (k : String) : List (String × JVal) :=
  match jget r k with
  | JVal.obj fs => fs
  | _ => []

/-- `getSlice` from `ndjson.go`: `row[key].([]any)` with a failed
assertion yielding the empty slice. -/
def getSliceGo (r : Option Row) (k : String) : List JVal :=
  match r with
  | none => []
  | some row =>
    match jget row k with
    | JVal.arr xs => xs
    | _ => []

/-- An iteration-order oracle: one reordering function per Go map value
shape that the engine iterates with `range`.  Go leaves this order
unspecified; `Iter.Valid` says each function returns a permutation. -/
structure Iter where
  strs : List String → List String
  ecs : List (String × JVal) → List (String × JVal)
  ints : List (String × Int) → List (String × Int)
  tbl : List (String × String) → List (String × String)

/-- A valid oracle only permutes the map entries it is given. -/
def Iter.Valid (o : Iter) : Prop :=
  (∀ l, List.Perm (o.strs l) l) ∧ (∀ l, List.Perm (o.ecs l) l) ∧
  (∀ l, List.Perm (o.ints l) l) ∧ (∀ l, List.Perm (o.tbl l) l)

/-- The canonical (insertion-order) oracle. -/
def idIter : Iter := ⟨id, id, id, id⟩

theorem idIter_valid : idIter.Valid :=
  ⟨fun _ => List.Perm.refl _, fun _ => List.Perm.refl _,
   fun _ => List.Perm.refl _, fun _ => List.Perm.refl _⟩

/-! ### Classification tables (`classify.go`) -/

/-- `probeSeverityPrefix` table, in declared order. -/
def probeSeverityPrefixTbl : List (String × String) :=
  [("config.", "high"),
   ("network.defaults_", "high"),
   ("network.socketfilterfw_", "high"),
   ("identity.dscl_", "medium"),
   ("identity.dseditgroup_", "medium"),
   ("network.ifconfig_", "medium"),
   ("network.lsof_", "medium"),
   ("network.scutil_", "medium"),
   ("execution.launchctl_", "medium"),
   ("execution.ps_", "low"),
   ("persistence.", "medium")]

/-- `probeSeverityExact` table. -/
def probeSeverityExact : List (String × String) :=
  [("network.socketfilterfw_stealth", "high")]

/-- `probeExpectedExitCodes` table (sets of expected codes as lists). -/
def probeExpectedExitCodes : List (String × List Int) :=
  [("config.fdesetup_status", [15, 1]),
   ("config.defaults_firewall_globalstate", [1]),
   ("config.defaults_screen_lock_delay", [1]),
   ("network.defaults_firewall_globalstate", [1]),
   ("identity.dscl_list_users", [70, 1]),
   ("identity.dseditgroup_checkmember", [1])]

/-- `probeTopic` table (a Go map literal; content in source order). -/
def probeTopicTbl : List (String × String) :=
  [("config.", "Security"),
   ("network.", "Network"),
   ("identity.", "Identity"),
   ("storage.", "Storage"),
   ("execution.", "Execution"),
   ("persistence.", "Persistence")]

/-- `TopicOrder` from `classify.go`. -/
def TopicOrder : List String :=
  ["Security", "Network", "Identity", "Storage", "Execution", "Persistence", "Other"]

/-- `SeverityOrder` from `classify.go`. -/
def SeverityOrder : List (String × Int) :=
  [("high", 0), ("medium", 1), ("low", 2)]

/-- `ProbeSeverity` from `classify.go`: exact table first, then the
first matching prefix in declared order, else `"low"`. -/
def ProbeSeverity (probe : String) : String :=
  match probeSeverityExact.lookup probe with
  | some sev => sev
  | none =>
    match probeSeverityPrefixTbl.find? (fun p => hasPrefixGo probe p.1) with
    | some p => p.2
    | none => "low"

/-- `ProbeTopic` from `classify.go`: iterates the `probeTopic` Go map
(order given by the oracle) and returns the topic of the first matching
prefix, else `"Other"`. -/
def ProbeTopic (o : Iter) (probe : String) : String :=
  match (o.tbl probeTopicTbl).find? (fun p => hasPrefixGo probe p.1) with
  | some p => p.2
  | none => "Other"

/-- The integer code set scanned out of an exit-code map by
`ExpectedState` (`for k := range exitCodes` with `Sscanf`). -/
def ecCodeSet (ec : List (String × JVal)) : List Int :=
  ec.foldl
    (fun s kv =>
      match parseGoInt kv.1 with
      | some c => insSet s c
      | none => s) []

/-- `ExpectedState` from `classify.go`.  The `exitCodes` map iteration
is oracle-ordered; the boolean aggregation over the code set is
order-insensitive, so the set iteration is kept canonical. -/
def ExpectedState (o : Iter) (probe : String) (exitCodes : List (String × JVal)) :
    String :=
  let expected := (probeExpectedExitCodes.lookup probe).getD []
  if expected.isEmpty then "unexpected"
  else
    let codes := ecCodeSet (o.ecs exitCodes)
    if codes.isEmpty then "unexpected"
    else
      let allInExpected := codes.all (fun c => expected.contains c)
      let hasOverlap := codes.any (fun c => expected.contains c)
      if allInExpected then "expected"
      else if hasOverlap then "mixed"
      else "unexpected"

/-- `ExpectedSuffix` from `classify.go`. -/
def ExpectedSuffix (o : Iter) (probe : String) (exitCodes : List (String × JVal)) :
    String :=
  match ExpectedState o probe exitCodes with
  | "expected" => " (expected)"
  | "mixed" => " (mixed)"
  | _ => ""

/-! ### Generic sorting (model of `sort.Slice` / `sort.Ints` / `sort.Strings`)

Go's sort produces a permutation ordered by the supplied comparison; at
every call site in this engine the compared keys are distinct, so the
sorted result is unique and insertion sort is a faithful model. -/

/-- Ordered insertion for `insSort`. -/
def insOrd {α : Type} (le : α → α → Bool) (a : α) : List α → List α
  | [] => [a]
  | b :: t => if le a b then a :: b :: t else b :: insOrd le a t

/-- Insertion sort by a boolean comparison. -/
def insSort {α : Type} (le : α → α → Bool) : List α → List α
  | [] => []
  | a :: t => insOrd le a (insSort le t)

/-- Decidable `≤` on `Int` as a boolean. -/
def intLE (a b : Int) : Bool := a ≤ b

/-- Decidable `≤` on `String` as a boolean. -/
def strLE (a b : String) : Bool := a ≤ b

/-- Go `strings.Join`. -/
def joinSep (sep : String) : List String → String
  | [] => ""
  | [x] => x
  | x :: y :: t => x ++ sep ++ joinSep sep (y :: t)

/-! ### Number and timestamp formatting (`ndjson.go`) -/

/-- Round a non-negative rational to the nearest integer, ties to even
(the rounding used by Go `fmt` fixed-point formatting). -/
def roundHalfEvenQ (q : Q) : Int :=
  let fl := q.floor
  let fr := q.sub (Qi fl)
  if Q.blt (Qd 1 2) fr then fl + 1
  else if Q.blt fr (Qd 1 2) then fl
  else if fl % 2 = 0 then fl else fl + 1

/-- Left-pad with zeros to a given width. -/
def padZeros (w : Nat) (s : String) : String :=
  if s.length < w then String.mk (List.replicate (w - s.length) '0') ++ s else s

/-- Go `fmt.Sprintf "%.<prec>f"` (and `"%+.<prec>f"` when `plus`) on the
exact rational standing for the float. -/
def goFmtF (prec : Nat) (plus : Bool) (q : Q) : String :=
  let sign := if Q.blt q 0 then "-" else if plus then "+" else ""
  let scale : Nat := 10 ^ prec
  let n := (roundHalfEvenQ (q.abs.mul (Qi scale))).toNat
  sign ++ toString (n / scale) ++ "." ++ padZeros prec (toString (n % scale))

/-- The unit loop of `fmtBytes`: binary units, integer-truncated for B,
one decimal place otherwise, `%.1fP` past the table. -/
def fmtBytesLoop : List String → Q → String
  | [], v => goFmtF 1 false v ++ "P"
  | u :: us, v =>
    if Q.blt v 1024 then
      if u = "B" then toString (truncQ v) ++ u else goFmtF 1 false v ++ u
    else fmtBytesLoop us (v.div 1024)

/-- `fmtBytes` from `ndjson.go`: `nil` and non-numbers give `N/A`;
numbers are humanized on their absolute value. -/
def fmtBytes (n : JVal) : String :=
  match n with
  | JVal.num x => fmtBytesLoop ["B", "K", "M", "G", "T"] x.abs
  | _ => "N/A"

mutual

/-- Go `fmt.Sprint` of a decoded JSON value, used by `fmtTsMs` only on
malformed (non-numeric) timestamp fields.  Scalar cases are exact;
composite values are approximated (unreachable for collector data).  -/
def jvalSprint : JVal → String
  | JVal.null => "<nil>"
  | JVal.bool b => if b then "true" else "false"
  | JVal.str s => s
  | JVal.num q => if q.den = 1 then toString q.num else toString q.num ++ "/" ++ toString q.den
  | JVal.arr xs => "[" ++ joinSep " " (jvalSprintList xs) ++ "]"
  | JVal.obj fs => "map[" ++ joinSep " " (jvalSprintObj fs) ++ "]"

/-- `fmt.Sprint` over the elements of a slice. -/
def jvalSprintList : List JVal → List String
  | [] => []
  | x :: t => jvalSprint x :: jvalSprintList t

/-- `fmt.Sprint` over the entries of a map. -/
def jvalSprintObj : List (String × JVal) → List String
  | [] => []
  | kv :: t => (kv.1 ++ ":" ++ jvalSprint kv.2) :: jvalSprintObj t

end

/-- Zero-pad a natural number to two digits. -/
def pad2 (n : Nat) : String :=
  if n < 10 then "0" ++ toString n else toString n

/-- Zero-pad a natural number to four digits (Go year field). -/
def pad4 (n : Nat) : String :=
  padZeros 4 (toString n)

/-- Civil date from days since 1970-01-01 (proleptic Gregorian), the
computation behind Go `time.UTC` date rendering.  All divisions act on
non-negative operands by construction. -/
def civilFromDays (z0 : Int) : Int × Int × Int :=
  let z := z0 + 719468
  let era : Int := (if 0 ≤ z then z else z - 146096).tdiv 146097
  let doe : Int := z - era * 146097
  let yoe : Int := (doe - doe.tdiv 1460 + doe.tdiv 36524 - doe.tdiv 146096).tdiv 365
  let y : Int := yoe + era * 400
  let doy : Int := doe - (365 * yoe + yoe.tdiv 4 - yoe.tdiv 100)
  let mp : Int := (5 * doy + 2).tdiv 153
  let d : Int := doy - (153 * mp + 2).tdiv 5 + 1
  let m : Int := if mp < 10 then mp + 3 else mp - 9
  (if m ≤ 2 then y + 1 else y, m, d)

/-- Go `time.UnixMilli(ms).UTC().Format("2006-01-02 15:04:05")`. -/
def fmtUnixUTC (msI : Int) : String :=
  let s := Int.fdiv msI 1000
  let days := Int.fdiv s 86400
  let sod := (s - days * 86400).toNat
  let ymd := civilFromDays days
  pad4 ymd.1.toNat ++ "-" ++ pad2 ymd.2.1.toNat ++ "-" ++ pad2 ymd.2.2.toNat ++ " " ++
    pad2 (sod / 3600) ++ ":" ++ pad2 (sod % 3600 / 60) ++ ":" ++ pad2 (sod % 60)

/-- `fmtTsMs` from `ndjson.go`: `nil` and `0` render as `N/A`; numbers
render as a UTC timestamp; other values fall back to `fmt.Sprint`. -/
def fmtTsMs (tsMs : JVal) : String :=
  match tsMs with
  | JVal.null => "N/A"
  | JVal.num ms => if Q.isZero ms then "N/A" else fmtUnixUTC (truncQ ms)
  | v => jvalSprint v

/-- `SpanLabel` from `ndjson.go`. -/
def SpanLabel (count : Int) (durMs : JVal) : String :=
  if count = 1 then "single-shot"
  else if Q.isZero (toFloat64 durMs) then "tight burst"
  else "span"

/-- `SpanFormat` from `ndjson.go`.  The timestamp formatter is a
parameter, exactly as in the source. -/
def SpanFormat (count : Int) (durMs rate firstTs lastTs : JVal)
    (fmtTs : JVal → String) : String :=
  let label := SpanLabel count durMs
  if label = "single-shot" then "single-shot"
  else if label = "tight burst" then "tight burst"
  else
    let span := fmtTs firstTs ++ " → " ++ fmtTs lastTs
    let durSec := (toFloat64 durMs).div 1000
    let r := toFloat64 rate
    if Q.ble 1 durSec && Q.blt 0 r then span ++ " (" ++ goFmtF 2 false r ++ "/s)"
    else span

/-! ### Exit-code maps (`ndjson.go`) -/

/-- `exitCodesDelta` from `ndjson.go`: union of the key sets, then the
per-code difference `curr - base` with missing codes reading as 0. -/
def exitCodesDelta (o : Iter) (baseEC currEC : List (String × JVal)) :
    List (String × Int) :=
  let allCodes :=
    (o.ecs currEC).foldl (fun s kv => insSet s kv.1)
      ((o.ecs baseEC).foldl (fun s kv => insSet s kv.1) [])
  (o.strs allCodes).foldl
    (fun delta c => upsert delta c (toInt (jget currEC c) - toInt (jget baseEC c))) []

/-- `normExitCodes` from `ndjson.go`: re-key the string-keyed map by the
`Sscanf`-parsed integer (later entries of the iteration overwrite). -/
def normExitCodes (o : Iter) (ec : List (String × JVal)) : List (Int × Int) :=
  (o.ecs ec).foldl
    (fun out kv =>
      match parseGoInt kv.1 with
      | some kk => upsert out kk (toInt kv.2)
      | none => out) []

/-- Go `b[k]` on an integer-keyed map (missing reads as 0). -/
def lookupI0 (m : List (Int × Int)) (k : Int) : Int :=
  (m.lookup k).getD 0

/-- `mapsEqual` from `ndjson.go`: equal length, and every entry of `a`
matches the (default 0) lookup in `b`. -/
def mapsEqual (a b : List (Int × Int)) : Bool :=
  a.length == b.length && a.all (fun kv => lookupI0 b kv.1 == kv.2)

/-- `probeFailureIsChanged` from `ndjson.go`. -/
def probeFailureIsChanged (o : Iter) (probe : String)
    (baseIt currIt : Option Row) : Bool :=
  match baseIt, currIt with
  | some bIt, some cIt =>
    if toInt (jget bIt "count") != toInt (jget cIt "count") then true
    else
      let baseEC := getMapGo bIt "exit_codes"
      let currEC := getMapGo cIt "exit_codes"
      if !(mapsEqual (normExitCodes o baseEC) (normExitCodes o currEC)) then true
      else ExpectedState o probe baseEC != ExpectedState o probe currEC
  | _, _ => true

/-! ### Probe entries (`ndjson.go`) -/

/-- The status rank table inside `probeSortKey`. -/
def statusOrderTbl : List (String × Int) :=
  [("new", 0), ("resolved", 1), ("changed", 2)]

/-- `probeSortKey` from `ndjson.go`. -/
def probeSortKey (probe status : String) : Int × Int × String :=
  let sev := (SeverityOrder.lookup (ProbeSeverity probe)).getD 2
  let so := (statusOrderTbl.lookup status).getD 3
  (sev, so, probe)

/-- Non-strict lexicographic comparison of probe sort keys (the sorted
order produced by `sort.Slice` with the strict key comparison). -/
def probeKeyLE (k1 k2 : Int × Int × String) : Bool :=
  k1.1 < k2.1 ||
    (k1.1 == k2.1 &&
      (k1.2.1 < k2.2.1 || (k1.2.1 == k2.2.1 && strLE k1.2.2 k2.2.2)))

/-- The `sortProbes` closure of `buildProbeFailureEntries`. -/
def sortProbes (status : String) (probes : List String) : List String :=
  insSort (fun a b => probeKeyLE (probeSortKey a status) (probeSortKey b status)) probes

/-- `probeEntry` from `ndjson.go` (`nil` item pointers are `none`). -/
structure PEntry where
  status : String
  probe : String
  baseIt : Option Row
  currIt : Option Row

/-- Keys of an association list, in order. -/
def keysOf {κ ν : Type} (m : List (κ × ν)) : List κ :=
  m.map (fun kv => kv.1)

/-- Go `_, ok := m[p]` on a map. -/
def hasKeyR {κ ν : Type} [BEq κ] (m : List (κ × ν)) (p : κ) : Bool :=
  (m.lookup p).isSome

/-- The by-probe indexing loops of `buildProbeFailureEntries`: skip
non-map items and items without a string `probe` field; later duplicates
overwrite earlier ones. -/
def probesIndex (items : List JVal) : List (String × Row) :=
  items.foldl
    (fun m it =>
      match it with
      | JVal.obj row =>
        match row.lookup "probe" with
        | some (JVal.str p) => upsert m p row
        | _ => m
      | _ => m) []

/-- `buildProbeFailureEntries` from `ndjson.go`. -/
def buildProbeFailureEntries (o : Iter) (basePF currPF : Option Row) : List PEntry :=
  let baseProbes := probesIndex (getSliceGo basePF "items")
  let currProbes := probesIndex (getSliceGo currPF "items")
  let newProbes :=
    (o.strs (keysOf currProbes)).filter (fun p => !(hasKeyR baseProbes p))
  let resolvedProbes :=
    (o.strs (keysOf baseProbes)).filter (fun p => !(hasKeyR currProbes p))
  let changedProbes :=
    (o.strs (keysOf baseProbes)).filter
      (fun p => hasKeyR currProbes p &&
        probeFailureIsChanged o p (baseProbes.lookup p) (currProbes.lookup p))
  (sortProbes "new" newProbes).map
      (fun p => PEntry.mk "new" p none (currProbes.lookup p)) ++
    (sortProbes "resolved" resolvedProbes).map
      (fun p => PEntry.mk "resolved" p (baseProbes.lookup p) none) ++
    (sortProbes "changed" changedProbes).map
      (fun p => PEntry.mk "changed" p (baseProbes.lookup p) (currProbes.lookup p))

/-! ### Entry formatting (`ndjson.go`) -/

/-- `formatExitCodes` from `ndjson.go`. -/
def formatExitCodes (o : Iter) (ec : List (String × JVal)) : String :=
  if ec.isEmpty then ""
  else
    let keys := insSort intLE ((o.ecs ec).filterMap (fun kv => parseGoInt kv.1))
    joinSep ","
      (keys.map (fun k => toString k ++ ":" ++ toString (toInt (jget ec (toString k)))))

/-- `formatExitCodesDelta` from `ndjson.go`: zero deltas are skipped,
positive deltas carry an explicit plus sign. -/
def formatExitCodesDelta (o : Iter) (delta : List (String × Int)) : String :=
  let keys := insSort intLE ((o.ints delta).filterMap (fun kv => parseGoInt kv.1))
  let parts := keys.foldr
    (fun k acc =>
      let v := (delta.lookup (toString k)).getD 0
      if v ≠ 0 then
        (toString k ++ ":" ++ (if 0 < v then "+" else "") ++ toString v) :: acc
      else acc) []
  joinSep ", " parts

/-- `formatProbeEntryNew` from `ndjson.go`. -/
def formatProbeEntryNew (o : Iter) (probe : String) (currIt : Row) : String :=
  let c := toInt (jget currIt "count")
  let ec := getMapGo currIt "exit_codes"
  let spanStr := SpanFormat c (jget currIt "duration_ms") (jget currIt "failure_rate")
    (jget currIt "first_ts_ms") (jget currIt "last_ts_ms") fmtTsMs
  "  + " ++ probe ++ " failed " ++ toString c ++ "× (" ++ spanStr ++
    "), exit_codes: \x7b" ++ formatExitCodes o ec ++ "\x7d" ++ ExpectedSuffix o probe ec

/-- `formatProbeEntryResolved` from `ndjson.go`. -/
def formatProbeEntryResolved (o : Iter) (probe : String) (baseIt : Row) : String :=
  let c := toInt (jget baseIt "count")
  let ec := getMapGo baseIt "exit_codes"
  "  - " ++ probe ++ " resolved (was " ++ toString c ++ "×, exit_codes: \x7b" ++
    formatExitCodes o ec ++ "\x7d)" ++ ExpectedSuffix o probe ec

/-- `formatProbeEntryChanged` from `ndjson.go`. -/
def formatProbeEntryChanged (o : Iter) (probe : String) (baseIt currIt : Row) : String :=
  let bc := toInt (jget baseIt "count")
  let cc := toInt (jget currIt "count")
  let ecDelta := exitCodesDelta o (getMapGo baseIt "exit_codes") (getMapGo currIt "exit_codes")
  let deltaStr := formatExitCodesDelta o ecDelta
  let expSuffix := ExpectedSuffix o probe (getMapGo currIt "exit_codes")
  if deltaStr ≠ "" then
    "  ~ " ++ probe ++ " " ++ toString bc ++ "×→" ++ toString cc ++
      "×, exit_codes: " ++ deltaStr ++ expSuffix
  else
    "  ~ " ++ probe ++ " " ++ toString bc ++ "×→" ++ toString cc ++ "×" ++ expSuffix

/-! ### Aggregate delta emitters (`ndjson.go`).  Printed output is the
returned list of lines; the boolean is the Go return value. -/

/-- The fixed byte-valued field list of `emitStorageDelta`. -/
def storageFields : List String :=
  ["home_bytes", "downloads_bytes", "desktop_bytes", "trash_bytes"]

/-- Go `v == nil` on a decoded JSON value. -/
def isNullJ (v : JVal) : Bool :=
  match v with
  | JVal.null => true
  | _ => false

/-- One row of the anonymous delta struct in `emitStorageDelta`. -/
structure SDelta where
  field : String
  b : JVal
  c : JVal
  delta : Q
  pct : Q

/-- `emitStorageDelta` from `ndjson.go`. -/
def emitStorageDelta (baseSum currSum : Option Row) : List String × Bool :=
  match baseSum, currSum with
  | some bs, some cs =>
    let deltas := storageFields.filterMap (fun f =>
      let b := jget bs f
      let c := jget cs f
      if isNullJ b || isNullJ c then none
      else
        let bf := toFloat64 b
        let cf := toFloat64 c
        let delta := cf.sub bf
        if Q.isZero delta then none
        else
          let pct := if !(Q.isZero bf) then (delta.div bf).mul 100 else 0
          some (SDelta.mk (trimSuffixGo f "_bytes") b c delta pct))
    if deltas.isEmpty then ([], false)
    else
      ("## Storage delta" ::
        deltas.map (fun d =>
          let sign := if Q.ble 0 d.delta then "+" else ""
          "  " ++ d.field ++ ": " ++ fmtBytes d.b ++ " → " ++ fmtBytes d.c ++
            " (" ++ sign ++ fmtBytes (JVal.num d.delta) ++ ", " ++
            goFmtF 1 true d.pct ++ "%)") ++ [""], true)
  | _, _ => ([], false)

/-- The fixed field list of `emitCountDelta`. -/
def countFields : List String :=
  ["large_files", "node_modules", "broken_symlinks", "git_repos", "venv_cache"]

/-- One row of the anonymous delta struct in `emitCountDelta`. -/
structure CDelta where
  field : String
  b : Int
  c : Int
  delta : Int

/-- `emitCountDelta` from `ndjson.go`. -/
def emitCountDelta (baseCounts currCounts : Option Row) : List String × Bool :=
  match baseCounts, currCounts with
  | some bc, some cc =>
    let deltas := countFields.filterMap (fun f =>
      let b := toInt (jget bc f)
      let c := toInt (jget cc f)
      if c - b ≠ 0 then some (CDelta.mk f b c (c - b)) else none)
    if deltas.isEmpty then ([], false)
    else
      ("## Count changes" ::
        deltas.map (fun d =>
          let sign := if 0 ≤ d.delta then "+" else ""
          "  " ++ d.field ++ ": " ++ toString d.b ++ " → " ++ toString d.c ++
            " (" ++ sign ++ toString d.delta ++ ")") ++ [""], true)
  | _, _ => ([], false)

/-- The fixed field list of `emitSecurityConfigDelta`. -/
def secFields : List String :=
  ["filevault", "sip", "gatekeeper", "firewall"]

/-- `emitSecurityConfigDelta` from `ndjson.go`. -/
def emitSecurityConfigDelta (baseSec currSec : Option Row) : List String × Bool :=
  match baseSec, currSec with
  | some bs, some cs =>
    let changes := secFields.filterMap (fun f =>
      let b := jget bs f
      let c := jget cs f
      if isNullJ b || isNullJ c then none
      else
        let bb := toBool b
        let cc := toBool c
        if bb != cc then some (f, bb, cc) else none)
    if changes.isEmpty then ([], false)
    else
      ("## Security config changes" ::
        changes.map (fun ch =>
          "  " ++ ch.1 ++ ": " ++ (if ch.2.1 then "on" else "off") ++ " → " ++
            (if ch.2.2 then "on" else "off")) ++ [""], true)
  | _, _ => ([], false)

/-- `emitHomebrewDelta` from `ndjson.go`. -/
def emitHomebrewDelta (baseBrew currBrew : Option Row) : List String × Bool :=
  match baseBrew, currBrew with
  | some bb, some cb =>
    let deltas := (["formulae", "casks"] : List String).filterMap (fun f =>
      let b := toInt (jget bb f)
      let c := toInt (jget cb f)
      if c - b ≠ 0 then some (CDelta.mk f b c (c - b)) else none)
    if deltas.isEmpty then ([], false)
    else
      ("## Homebrew delta" ::
        deltas.map (fun d =>
          let sign := if 0 ≤ d.delta then "+" else ""
          "  " ++ d.field ++ ": " ++ toString d.b ++ " → " ++ toString d.c ++
            " (" ++ sign ++ toString d.delta ++ ")") ++ [""], true)
  | _, _ => ([], false)

/-- `emitNewWarnings` from `ndjson.go`: alphabetically sorted, one per
line; an empty list suppresses the section. -/
def emitNewWarnings (codes : List String) : List String × Bool :=
  if codes.isEmpty then ([], false)
  else
    ("## New warnings" ::
      (insSort strLE codes).map (fun c => "  - " ++ c) ++ [""], true)

/-! ### Row stream helpers (`ndjson.go`) -/

/-- `CollectWarningCodes` from `ndjson.go`: unique warning identifiers
of all `warning` rows; a row without a string `code` but with a
`soft_failures` key contributes the literal `soft_failures`. -/
def CollectWarningCodes (rows : List Row) : List String :=
  rows.foldl
    (fun codes row =>
      let t := match jget row "type" with
        | JVal.str s => s
        | _ => ""
      if t ≠ "warning" then codes
      else
        match row.lookup "code" with
        | some (JVal.str c) => insSet codes c
        | _ => if hasKey row "soft_failures" then insSet codes "soft_failures" else codes)
    []

/-- `GroupByType` from `ndjson.go`: last row wins per type; rows whose
`type` is missing, not a string, or empty are excluded. -/
def GroupByType (rows : List Row) : List (String × Row) :=
  rows.foldl
    (fun byType row =>
      match jget row "type" with
      | JVal.str t => if t ≠ "" then upsert byType t row else byType
      | _ => byType)
    []

/-! ### Probe-failures section and the full run (`ndjson.go`) -/

/-- The index scan of `topicSortKey`. -/
def topicIdx : List String → Int → String → Int
  | [], _, _ => 99
  | t :: rest, i, topic => if t = topic then i else topicIdx rest (i + 1) topic

/-- `topicSortKey` from `ndjson.go`. -/
def topicSortKey (topic : String) : Int :=
  topicIdx TopicOrder 0 topic

/-- Non-strict version of the topic comparison in `emitProbeFailuresDelta`. -/
def topicLE (a b : String) : Bool :=
  topicSortKey a < topicSortKey b ||
    (topicSortKey a == topicSortKey b && strLE a b)

/-- Go `byTopic[topic] = append(byTopic[topic], e)`. -/
def appendAt (m : List (String × List PEntry)) (k : String) (e : PEntry) :
    List (String × List PEntry) :=
  match m with
  | [] => [(k, [e])]
  | (k', v) :: t => if k' = k then (k, v ++ [e]) :: t else (k', v) :: appendAt t k e

/-- The per-entry dispatch inside `emitProbeFailuresDelta`. -/
def fmtEntryLine (o : Iter) (e : PEntry) : String :=
  match e.status with
  | "new" => formatProbeEntryNew o e.probe (e.currIt.getD [])
  | "resolved" => formatProbeEntryResolved o e.probe (e.baseIt.getD [])
  | _ => formatProbeEntryChanged o e.probe (e.baseIt.getD []) (e.currIt.getD [])

/-- `emitProbeFailuresDelta` from `ndjson.go`. -/
def emitProbeFailuresDelta (o : Iter) (basePF currPF : Option Row) :
    List String × Bool :=
  let entries := buildProbeFailureEntries o basePF currPF
  if entries.isEmpty then
    (["## Probe failures delta", "  No changes detected", ""], false)
  else
    let byTopic := entries.foldl (fun m e => appendAt m (ProbeTopic o e.probe) e) []
    let topics := insSort topicLE (o.strs (keysOf byTopic))
    ("## Probe failures delta" ::
      topics.foldr
        (fun t acc =>
          "" :: ("### " ++ t) ::
            (((byTopic.lookup t).getD []).map (fmtEntryLine o) ++ acc)) [""],
      true)

/-- `Run` from `ndjson.go`, parametrized by the iteration oracle. -/
def RunWith (o : Iter) (baselineRows currentRows : List Row) : List String × Bool :=
  let baseByType := GroupByType baselineRows
  let currByType := GroupByType currentRows
  let st := emitStorageDelta (baseByType.lookup "summary") (currByType.lookup "summary")
  let ct := emitCountDelta (baseByType.lookup "counts") (currByType.lookup "counts")
  let sec := emitSecurityConfigDelta (baseByType.lookup "security_config")
    (currByType.lookup "security_config")
  let hb := emitHomebrewDelta (baseByType.lookup "homebrew_summary")
    (currByType.lookup "homebrew_summary")
  let baseWarnings := CollectWarningCodes baselineRows
  let currWarnings := CollectWarningCodes currentRows
  let newWarnings := (o.strs currWarnings).filter (fun c => !(baseWarnings.contains c))
  let w := emitNewWarnings newWarnings
  let pf := emitProbeFailuresDelta o (baseByType.lookup "probe_failures_summary")
    (currByType.lookup "probe_failures_summary")
  let hasDeltas := st.2 || ct.2 || sec.2 || hb.2 || w.2 || pf.2
  (st.1 ++ ct.1 ++ sec.1 ++ hb.1 ++ w.1 ++ pf.1 ++
      (if hasDeltas then [] else ["No changes detected between baseline and current."]),
    hasDeltas)

/-- `Run` with the canonical iteration order. -/
def Run (baselineRows currentRows : List Row) : List String × Bool :=
  RunWith idIter baselineRows currentRows

/-! ### Record stream reader (`ReadNDJSON` in `ndjson.go`)

The file system and `encoding/json` are modelled at the boundary: the
input is the list of the lines of the file, and the JSON object grammar
is an abstract `parse` function (`json.Unmarshal` into `map[string]any`:
`some` on success).  The `bufio.Scanner` line-size cap is the byte
length check; a longer line surfaces as `scanner.Err()`, i.e. a read
failure distinct from a parse failure, and discards everything. -/

/-- Go `strings.TrimSpace` (leading and trailing whitespace removed),
modelled structurally so it reduces in the kernel. -/
def trimSpaceGo (s : String) : String :=
  String.mk (((s.data.dropWhile (fun c => c.isWhitespace)).reverse.dropWhile
    (fun c => c.isWhitespace)).reverse)

/-- `maxLineSize` from `ndjson.go` (1MB scanner buffer limit). -/
def maxLineSize : Nat := 1024 * 1024

/-- The two error shapes of `ReadNDJSON`: a scanner/read failure, or a
content-parse failure carrying the 1-based physical line number. -/
inductive ReadErr where
  | tooLong : ReadErr
  | badLine (lineNo : Nat) : ReadErr
deriving DecidableEq

/-- The scan loop of `ReadNDJSON`, carrying the current 1-based line
number.  Any error discards all previously collected rows. -/
def readNDJSONLoop (parse : String → Option Row) :
    Nat → List String → Except ReadErr (List Row)
  | _, [] => Except.ok []
  | lineNo, l :: rest =>
    if maxLineSize < l.utf8ByteSize then Except.error ReadErr.tooLong
    else
      let t := trimSpaceGo l
      if t = "" then readNDJSONLoop parse (lineNo + 1) rest
      else
        match parse t with
        | none => Except.error (ReadErr.badLine lineNo)
        | some row => (readNDJSONLoop parse (lineNo + 1) rest).map (fun rs => row :: rs)

/-- `ReadNDJSON` from `ndjson.go` over the lines of the source file. -/
def ReadNDJSON (parse : String → Option Row) (lines : List String) :
    Except ReadErr (List Row) :=
  readNDJSONLoop parse 1 lines

/-! ## Claims

Spec-side definitions (named `spec...` / `claim...`) transcribe the
specification text; every other definition above transcribes the Go
source.  Each claim gets exactly one theorem. -/

/-! ### C2 — `ExpectedState` classification -/

/-- The code set as the spec claims it: exit codes with a **non-zero**
occurrence count in the map. -/
def claimCodeSetC2 (ec : List (String × JVal)) : List Int :=
  ec.foldl
    (fun s kv =>
      match parseGoInt kv.1 with
      | some c => if toInt kv.2 ≠ 0 then insSet s c else s
      | none => s) []

/-- The claimed classification: C from non-zero occurrences, then
unexpected / expected / mixed / unexpected by emptiness, inclusion and
overlap with the expected set E. -/
def claimExpectedStateC2 (probe : String) (ec : List (String × JVal)) : String :=
  let expected := (probeExpectedExitCodes.lookup probe).getD []
  let codes := claimCodeSetC2 ec
  if codes.isEmpty then "unexpected"
  else if codes.all (fun c => expected.contains c) then "expected"
  else if codes.any (fun c => expected.contains c) then "mixed"
  else "unexpected"

/-- The amended classification: C is the set of integer-parsable keys
present in the map, their occurrence counts ignored. -/
def specExpectedStateKeys (probe : String) (ec : List (String × JVal)) : String :=
  let expected := (probeExpectedExitCodes.lookup probe).getD []
  let codes := ecCodeSet ec
  if codes.isEmpty then "unexpected"
  else if codes.all (fun c => expected.contains c) then "expected"
  else if codes.any (fun c => expected.contains c) then "mixed"
  else "unexpected"

/-- C2 counterexample: for `identity.dseditgroup_checkmember`
(expected set `{1}`) and the map `{"1": 1, "2": 0}`, the claim predicts
`expected` (code 2 has occurrence 0, so C = {1} ⊆ E), but the code
classifies `mixed`: it never reads the occurrence counts. -/
theorem C2_counterexample :
    ExpectedState idIter "identity.dseditgroup_checkmember"
        [("1", JVal.num 1), ("2", JVal.num 0)] = "mixed" ∧
    claimExpectedStateC2 "identity.dseditgroup_checkmember"
        [("1", JVal.num 1), ("2", JVal.num 0)] = "expected" ∧
    ("mixed" : String) ≠ "expected" := by
  refine ⟨rfl, rfl, by decide⟩

/-- C2 (amended): `ExpectedState` classifies by the set C of
integer-parsable keys of the exit-code map (occurrence counts ignored):
unexpected when C is empty, expected when C is non-empty and a subset of
the expected set E (empty if the probe is not in the table), mixed when
C meets E but is not contained in it, unexpected otherwise. -/
theorem C2_theorem (probe : String) (ec : List (String × JVal)) :
    ExpectedState idIter probe ec = specExpectedStateKeys probe ec := by
  unfold ExpectedState specExpectedStateKeys
  simp only [idIter, id]
  rcases hE : (probeExpectedExitCodes.lookup probe).getD [] with _ | ⟨e, es⟩
  · simp only [List.isEmpty_nil, if_true]
    rcases hc : ecCodeSet ec with _ | ⟨c, cs⟩
    · simp
    · simp
  · simp only [List.isEmpty_cons, if_neg Bool.false_ne_true]

/-- C2 witness: a concrete evaluation of the amended equation. -/
theorem C2_witness :
    ExpectedState idIter "identity.dscl_list_users" [("70", JVal.num 1)] =
      specExpectedStateKeys "identity.dscl_list_users" [("70", JVal.num 1)] :=
  C2_theorem "identity.dscl_list_users" [("70", JVal.num 1)]

/-! ### C4 — span formatting of new-probe entries -/

/-- The span string exactly as the claim states it: `single-shot` for
count 1; `tight burst` for count **greater than 1** with zero duration;
otherwise the formatted timestamp span, with the two-decimal rate suffix
appended iff the duration is at least 1000 ms and the rate is positive. -/
def claimSpanC4 (count : Int) (durMs rate firstTs lastTs : JVal) : String :=
  if count = 1 then "single-shot"
  else if 1 < count ∧ Q.isZero (toFloat64 durMs) then "tight burst"
  else
    let span := fmtTsMs firstTs ++ " → " ++ fmtTsMs lastTs
    if Q.ble 1000 (toFloat64 durMs) && Q.blt 0 (toFloat64 rate) then
      span ++ " (" ++ goFmtF 2 false (toFloat64 rate) ++ "/s)"
    else span

/-- The amended span string: the `tight burst` case requires only
`count ≠ 1` (not `count > 1`), everything else as claimed. -/
def amendedSpanC4 (count : Int) (durMs rate firstTs lastTs : JVal) : String :=
  if count = 1 then "single-shot"
  else if Q.isZero (toFloat64 durMs) then "tight burst"
  else
    let span := fmtTsMs firstTs ++ " → " ++ fmtTsMs lastTs
    if Q.ble 1000 (toFloat64 durMs) && Q.blt 0 (toFloat64 rate) then
      span ++ " (" ++ goFmtF 2 false (toFloat64 rate) ++ "/s)"
    else span

/-- C4 counterexample: at `count = 0`, `duration_ms = 0` the claim
falls into its `otherwise` branch and predicts the formatted span
(`N/A → N/A` here), but the code renders `tight burst`. -/
theorem C4_counterexample :
    SpanFormat 0 (JVal.num 0) JVal.null JVal.null JVal.null fmtTsMs = "tight burst" ∧
    claimSpanC4 0 (JVal.num 0) JVal.null JVal.null JVal.null = "N/A → N/A" ∧
    ("tight burst" : String) ≠ "N/A → N/A" := by
  refine ⟨rfl, rfl, by decide⟩

/-- Dividing by the literal 1000 and comparing to 1 is comparing the
dividend to 1000. -/
theorem qble_div_1000 : ∀ dQ : Q, Q.ble 1 (dQ.div 1000) = Q.ble 1000 dQ := by
  rintro ⟨n, k⟩
  show decide _ = decide _
  apply decide_eq_decide.mpr
  show (1 : Int) * ((k : Nat) * 1000 : Nat) ≤ n * 1 * 1 * 1 ↔
    (1000 : Int) * (k : Nat) ≤ n * 1
  push_cast
  constructor <;> intro h <;> nlinarith

/-- C4 (amended): `SpanFormat` yields `single-shot` iff `count = 1`;
`tight burst` when `count ≠ 1` and the coerced duration is zero;
otherwise the `first → last` timestamp span with the rate suffix
appended iff `duration_ms ≥ 1000` and `failure_rate > 0`; and a zero or
missing timestamp renders as `N/A`. -/
theorem C4_theorem :
    (∀ (count : Int) (durMs rate firstTs lastTs : JVal),
      SpanFormat count durMs rate firstTs lastTs fmtTsMs =
        amendedSpanC4 count durMs rate firstTs lastTs) ∧
    fmtTsMs (JVal.num 0) = "N/A" ∧ fmtTsMs JVal.null = "N/A" := by
  refine ⟨fun count durMs rate firstTs lastTs => ?_, rfl, rfl⟩
  by_cases h1 : count = 1
  · simp [SpanFormat, SpanLabel, amendedSpanC4, h1]
  · by_cases h2 : Q.isZero (toFloat64 durMs) = true
    · simp only [SpanFormat, SpanLabel, amendedSpanC4, if_neg h1, if_pos h2]
      rw [if_neg (by decide : ¬("tight burst" : String) = "single-shot")]
      simp
    · simp only [SpanFormat, SpanLabel, amendedSpanC4, if_neg h1, if_neg h2]
      rw [if_neg (by decide : ¬("span" : String) = "single-shot"),
        if_neg (by decide : ¬("span" : String) = "tight burst"),
        qble_div_1000 (toFloat64 durMs)]

/-! ### C5 — `ProbeSeverity` precedence -/

/-- The severity of the first matching prefix in declared order, as the
spec words it. -/
def firstMatchingSev (probe : String) : List (String × String) → Option String
  | [] => none
  | p :: rest => if hasPrefixGo probe p.1 then some p.2 else firstMatchingSev probe rest

/-- The claimed severity: the exact-match table entry when present
(always overriding any prefix match), else the severity of the first
matching prefix in the prefix table's declared order, else `low`. -/
def claimSeverityC5 (probe : String) : String :=
  match probeSeverityExact.lookup probe with
  | some sev => sev
  | none => (firstMatchingSev probe probeSeverityPrefixTbl).getD "low"

/-- `find?` on the prefix table agrees with the spec-side first-match
scan. -/
theorem firstMatchingSev_find (probe : String) :
    ∀ l : List (String × String),
      (firstMatchingSev probe l).getD "low" =
        (match l.find? (fun p => hasPrefixGo probe p.1) with
         | some p => p.2
         | none => "low")
  | [] => rfl
  | p :: rest => by
    by_cases h : hasPrefixGo probe p.1
    · simp [firstMatchingSev, List.find?_cons, h]
    · simp only [firstMatchingSev, if_neg h, List.find?_cons,
        Bool.not_eq_true] at *
      rw [firstMatchingSev_find probe rest]
      cases hf : List.find? (fun q => hasPrefixGo probe q.1) rest <;>
        simp [h, hf]

/-- C5: `ProbeSeverity` returns the exact-match table entry when the
probe is in the exact table, else the severity of the first matching
prefix in declared order, else `low`. -/
theorem C5_theorem (probe : String) :
    ProbeSeverity probe = claimSeverityC5 probe := by
  unfold ProbeSeverity claimSeverityC5
  cases hx : probeSeverityExact.lookup probe
  · rw [← firstMatchingSev_find probe probeSeverityPrefixTbl]
  · rfl

/-! ### C10 — permissive coercion of malformed records -/

/-- An `items` entry that `buildProbeFailureEntries` keeps: a map with a
string `probe` field. -/
def itemConforms (it : JVal) : Bool :=
  match it with
  | JVal.obj row =>
    match row.lookup "probe" with
    | some (JVal.str _) => true
    | _ => false
  | _ => false

/-- A row that `GroupByType` indexes: a string, non-empty `type`. -/
def rowTypeValid (row : Row) : Bool :=
  match jget row "type" with
  | JVal.str t => t ≠ ""
  | _ => false

/-- A left fold ignores the elements a skip-predicate rejects. -/
theorem foldl_filter_of_skip {α β : Type} (f : β → α → β) (p : α → Bool)
    (hskip : ∀ b a, p a = false → f b a = b) :
    ∀ (l : List α) (b : β), l.foldl f b = (l.filter p).foldl f b
  | [], _ => rfl
  | a :: t, b => by
    by_cases hp : p a = true
    · rw [List.filter_cons_of_pos hp]
      exact foldl_filter_of_skip f p hskip t (f b a)
    · have hp' : p a = false := by
        cases h : p a
        · rfl
        · exact absurd h hp
      rw [List.filter_cons_of_neg (by simp [hp']), List.foldl_cons, hskip b a hp']
      exact foldl_filter_of_skip f p hskip t b

/-- C10: malformed records degrade to conservative defaults — a missing
or non-numeric field coerces to 0 through `toInt`; a non-map
`exit_codes` and a non-list `items` read as empty; non-conforming items
are skipped by the probe indexing; and rows with a missing, non-string
or empty `type` are excluded from the type index. -/
theorem C10_theorem :
    (∀ (r : Row) (k : String), ¬ hasKey r k = true → toInt (jget r k) = 0) ∧
    (toInt JVal.null = 0 ∧ (∀ b, toInt (JVal.bool b) = 0) ∧
      (∀ s, toInt (JVal.str s) = 0) ∧ (∀ xs, toInt (JVal.arr xs) = 0) ∧
      (∀ fs, toInt (JVal.obj fs) = 0)) ∧
    (∀ (r : Row) (k : String),
      getMapGo r k = [] ∨ ∃ fs, jget r k = JVal.obj fs ∧ getMapGo r k = fs) ∧
    (∀ (r : Option Row) (k : String),
      getSliceGo r k = [] ∨
        ∃ row xs, r = some row ∧ jget row k = JVal.arr xs ∧ getSliceGo r k = xs) ∧
    (∀ items : List JVal, probesIndex items = probesIndex (items.filter itemConforms)) ∧
    (∀ rows : List Row, GroupByType rows = GroupByType (rows.filter rowTypeValid)) := by
  refine ⟨?_, ⟨rfl, fun _ => rfl, fun _ => rfl, fun _ => rfl, fun _ => rfl⟩, ?_, ?_, ?_, ?_⟩
  · intro r k h
    unfold hasKey at h
    unfold jget
    rcases hl : r.lookup k with _ | v
    · rfl
    · rw [hl] at h
      exact absurd rfl h
  · intro r k
    rcases h : jget r k with _ | _ | _ | _ | _ | fs
    · exact Or.inl (by simp [getMapGo, h])
    · exact Or.inl (by simp [getMapGo, h])
    · exact Or.inl (by simp [getMapGo, h])
    · exact Or.inl (by simp [getMapGo, h])
    · exact Or.inl (by simp [getMapGo, h])
    · exact Or.inr ⟨fs, rfl, by simp [getMapGo, h]⟩
  · intro r k
    rcases r with _ | row
    · exact Or.inl rfl
    · rcases h : jget row k with _ | _ | _ | _ | xs | _
      · exact Or.inl (by simp [getSliceGo, h])
      · exact Or.inl (by simp [getSliceGo, h])
      · exact Or.inl (by simp [getSliceGo, h])
      · exact Or.inl (by simp [getSliceGo, h])
      · exact Or.inr ⟨row, xs, rfl, h, by simp [getSliceGo, h]⟩
      · exact Or.inl (by simp [getSliceGo, h])
  · intro items
    unfold probesIndex
    apply foldl_filter_of_skip
    intro m it hskip
    rcases it with _ | _ | _ | _ | _ | row
    · rfl
    · rfl
    · rfl
    · rfl
    · rfl
    · simp only [itemConforms] at hskip
      rcases hl : row.lookup "probe" with _ | v
      · simp [hl]
      · rcases v with _ | _ | _ | s | _ | _
        · simp [hl]
        · simp [hl]
        · simp [hl]
        · rw [hl] at hskip
          simp at hskip
        · simp [hl]
        · simp [hl]
  · intro rows
    unfold GroupByType
    apply foldl_filter_of_skip
    intro m row hskip
    simp only [rowTypeValid] at hskip
    rcases h : jget row "type" with _ | _ | _ | t | _ | _
    · simp [h]
    · simp [h]
    · simp [h]
    · rw [h] at hskip
      simp only [decide_not] at hskip
      have : t = "" := by
        by_contra hne
        simp [hne] at hskip
      simp [h, this]
    · simp [h]
    · simp [h]

/-- C10 witness: concrete malformed inputs taking the degraded paths. -/
theorem C10_witness :
    toInt (jget [("other", JVal.num 3)] "count") = 0 ∧
    probesIndex [JVal.str "junk", JVal.obj [("probe", JVal.str "a.b")]] =
      probesIndex (([JVal.str "junk", JVal.obj [("probe", JVal.str "a.b")]]).filter itemConforms) :=
  ⟨C10_theorem.1 [("other", JVal.num 3)] "count" (by decide),
   C10_theorem.2.2.2.2.1 [JVal.str "junk", JVal.obj [("probe", JVal.str "a.b")]]⟩

/-! ### C7 — all-or-nothing reading with line-addressed errors -/

/-- A line the reader consumes without failing: within the scanner
limit, and parseable whenever non-blank. -/
def GoodLine (parse : String → Option Row) (l : String) : Prop :=
  l.utf8ByteSize ≤ maxLineSize ∧ (trimSpaceGo l ≠ "" → (parse (trimSpaceGo l)).isSome = true)

/-- Deciding `GoodLine` for concrete lines and parsers. -/
instance goodLineDec (parse : String → Option Row) (l : String)
    [Decidable ((parse (trimSpaceGo l)).isSome = true)] :
    Decidable (GoodLine parse l) := by
  unfold GoodLine
  infer_instance

/-- One unfolding step of the scan loop. -/
theorem readLoop_cons (parse : String → Option Row) (n : Nat) (l : String)
    (rest : List String) :
    readNDJSONLoop parse n (l :: rest) =
      if maxLineSize < l.utf8ByteSize then Except.error ReadErr.tooLong
      else if trimSpaceGo l = "" then readNDJSONLoop parse (n + 1) rest
      else
        match parse (trimSpaceGo l) with
        | none => Except.error (ReadErr.badLine n)
        | some row => (readNDJSONLoop parse (n + 1) rest).map (fun rs => row :: rs) :=
  rfl

/-- On an all-good suffix the loop returns every parsed non-blank line
in order. -/
theorem readLoop_ok (parse : String → Option Row) :
    ∀ (lines : List String) (n : Nat),
      (∀ l ∈ lines, GoodLine parse l) →
      readNDJSONLoop parse n lines =
        Except.ok (lines.filterMap (fun l => if trimSpaceGo l = "" then none else parse (trimSpaceGo l)))
  | [], _, _ => rfl
  | l :: rest, n, h => by
    have hl := h l (List.mem_cons_self _ _)
    have hrest := fun lp hm => h lp (List.mem_cons_of_mem _ hm)
    rw [readLoop_cons, if_neg (not_lt.mpr hl.1)]
    by_cases ht : trimSpaceGo l = ""
    · rw [if_pos ht, readLoop_ok parse rest (n + 1) hrest]
      simp [List.filterMap_cons, ht]
    · rw [if_neg ht]
      rcases hsome : parse (trimSpaceGo l) with _ | row
      · exact absurd (hl.2 ht) (by rw [hsome]; exact Bool.false_ne_true)
      · simp only [hsome, readLoop_ok parse rest (n + 1) hrest, Except.map,
          List.filterMap_cons, if_neg ht]

/-- After a good prefix, a within-limit non-blank line that fails to
parse aborts the loop with that line's physical number. -/
theorem readLoop_badLine (parse : String → Option Row) :
    ∀ (pre : List String) (l : String) (post : List String) (n : Nat),
      (∀ l' ∈ pre, GoodLine parse l') →
      l.utf8ByteSize ≤ maxLineSize → trimSpaceGo l ≠ "" → parse (trimSpaceGo l) = none →
      readNDJSONLoop parse n (pre ++ l :: post) =
        Except.error (ReadErr.badLine (n + pre.length))
  | [], l, post, n, _, hsz, ht, hp => by
    rw [List.nil_append, readLoop_cons, if_neg (not_lt.mpr hsz), if_neg ht]
    simp [hp]
  | l' :: pre, l, post, n, hpre, hsz, ht, hp => by
    have hl' := hpre l' (List.mem_cons_self _ _)
    have hrest := fun lp hm => hpre lp (List.mem_cons_of_mem _ hm)
    rw [List.cons_append, readLoop_cons, if_neg (not_lt.mpr hl'.1)]
    have hrec := readLoop_badLine parse pre l post (n + 1) hrest hsz ht hp
    have harith : n + 1 + pre.length = n + (pre.length + 1) := by omega
    by_cases ht' : trimSpaceGo l' = ""
    · rw [if_pos ht', hrec, List.length_cons, harith]
    · rw [if_neg ht']
      rcases hsome : parse (trimSpaceGo l') with _ | row
      · exact absurd (hl'.2 ht') (by rw [hsome]; exact Bool.false_ne_true)
      · simp only [hsome, hrec, List.length_cons, harith, Except.map]

/-- After a good prefix, a line beyond the scanner limit surfaces as a
read failure and discards everything. -/
theorem readLoop_tooLong (parse : String → Option Row) :
    ∀ (pre : List String) (l : String) (post : List String) (n : Nat),
      (∀ l' ∈ pre, GoodLine parse l') →
      maxLineSize < l.utf8ByteSize →
      readNDJSONLoop parse n (pre ++ l :: post) = Except.error ReadErr.tooLong
  | [], l, post, n, _, hsz => by
    rw [List.nil_append, readLoop_cons, if_pos hsz]
  | l' :: pre, l, post, n, hpre, hsz => by
    have hl' := hpre l' (List.mem_cons_self _ _)
    have hrest := fun lp hm => hpre lp (List.mem_cons_of_mem _ hm)
    rw [List.cons_append, readLoop_cons, if_neg (not_lt.mpr hl'.1)]
    have hrec := readLoop_tooLong parse pre l post (n + 1) hrest hsz
    by_cases ht' : trimSpaceGo l' = ""
    · rw [if_pos ht', hrec]
    · rw [if_neg ht']
      rcases hsome : parse (trimSpaceGo l') with _ | row
      · exact absurd (hl'.2 ht') (by rw [hsome]; exact Bool.false_ne_true)
      · simp only [hsome, hrec, Except.map]

/-- C7: `ReadNDJSON` either returns the full ordered sequence of
records — one per non-blank line in file order, whitespace-only lines
skipped — or fails returning no records at all (the result type allows
no partial success): a parse failure is reported with the 1-based
physical line number of the offending line (blank lines counted), and
an over-long line is reported as a read failure, not truncated. -/
theorem C7_theorem (parse : String → Option Row) (lines : List String) :
    ((∀ l ∈ lines, GoodLine parse l) →
      ReadNDJSON parse lines =
        Except.ok (lines.filterMap (fun l => if trimSpaceGo l = "" then none else parse (trimSpaceGo l)))) ∧
    (∀ (pre : List String) (l : String) (post : List String),
      lines = pre ++ l :: post →
      (∀ l' ∈ pre, GoodLine parse l') →
      l.utf8ByteSize ≤ maxLineSize → trimSpaceGo l ≠ "" → parse (trimSpaceGo l) = none →
      ReadNDJSON parse lines = Except.error (ReadErr.badLine (pre.length + 1))) ∧
    (∀ (pre : List String) (l : String) (post : List String),
      lines = pre ++ l :: post →
      (∀ l' ∈ pre, GoodLine parse l') →
      maxLineSize < l.utf8ByteSize →
      ReadNDJSON parse lines = Except.error ReadErr.tooLong) := by
  refine ⟨fun h => readLoop_ok parse lines 1 h, ?_, ?_⟩
  · intro pre l post heq hpre hsz ht hp
    rw [ReadNDJSON, heq, readLoop_badLine parse pre l post 1 hpre hsz ht hp,
      Nat.add_comm 1 pre.length]
  · intro pre l post heq hpre hsz
    rw [ReadNDJSON, heq, readLoop_tooLong parse pre l post 1 hpre hsz]

/-- A toy object grammar for exercising the reader. -/
def toyParse (s : String) : Option Row :=
  if s = "bad" then none else some [("raw", JVal.str s)]

/-- C7 witness: a concrete read succeeding, and a concrete read failing
at physical line 4 past two blank lines. -/
theorem C7_witness :
    ReadNDJSON toyParse ["", "a", " ", "bad", "c"] =
      Except.error (ReadErr.badLine 4) ∧
    ReadNDJSON toyParse ["x", "", "y"] =
      Except.ok [[("raw", JVal.str "x")], [("raw", JVal.str "y")]] := by
  constructor
  · exact (C7_theorem toyParse _).2.1 ["", "a", " "] "bad" ["c"] rfl
      (by decide) (by decide) (by decide) rfl
  · have h := (C7_theorem toyParse ["x", "", "y"]).1 (by decide)
    rw [h]
    rfl

/-! ### C8 — emitter sequencing, OR of deltas, no-change lines -/

/-- C8: `Run` invokes the emitters in the fixed order storage, counts,
security-config, homebrew, new-warnings, probe-failures; returns the
boolean OR of their found-a-delta results; the summary line `No changes
detected between baseline and current.` is appended exactly when the OR
is false; and with zero probe-failure diff entries the probe section is
the header, a literal `No changes detected` line and a blank line,
reporting no delta. -/
theorem C8_theorem (b c : List Row) :
    ((Run b c).2 =
      ((emitStorageDelta ((GroupByType b).lookup "summary")
          ((GroupByType c).lookup "summary")).2 ||
        (emitCountDelta ((GroupByType b).lookup "counts")
          ((GroupByType c).lookup "counts")).2 ||
        (emitSecurityConfigDelta ((GroupByType b).lookup "security_config")
          ((GroupByType c).lookup "security_config")).2 ||
        (emitHomebrewDelta ((GroupByType b).lookup "homebrew_summary")
          ((GroupByType c).lookup "homebrew_summary")).2 ||
        (emitNewWarnings ((CollectWarningCodes c).filter
          (fun w => !((CollectWarningCodes b).contains w)))).2 ||
        (emitProbeFailuresDelta idIter ((GroupByType b).lookup "probe_failures_summary")
          ((GroupByType c).lookup "probe_failures_summary")).2)) ∧
    ((Run b c).1 =
      (emitStorageDelta ((GroupByType b).lookup "summary")
          ((GroupByType c).lookup "summary")).1 ++
        (emitCountDelta ((GroupByType b).lookup "counts")
          ((GroupByType c).lookup "counts")).1 ++
        (emitSecurityConfigDelta ((GroupByType b).lookup "security_config")
          ((GroupByType c).lookup "security_config")).1 ++
        (emitHomebrewDelta ((GroupByType b).lookup "homebrew_summary")
          ((GroupByType c).lookup "homebrew_summary")).1 ++
        (emitNewWarnings ((CollectWarningCodes c).filter
          (fun w => !((CollectWarningCodes b).contains w)))).1 ++
        (emitProbeFailuresDelta idIter ((GroupByType b).lookup "probe_failures_summary")
          ((GroupByType c).lookup "probe_failures_summary")).1 ++
        (if (Run b c).2 then []
         else ["No changes detected between baseline and current."])) ∧
    (∀ basePF currPF : Option Row,
      buildProbeFailureEntries idIter basePF currPF = [] →
      emitProbeFailuresDelta idIter basePF currPF =
        (["## Probe failures delta", "  No changes detected", ""], false)) := by
  refine ⟨rfl, rfl, ?_⟩
  intro basePF currPF h
  unfold emitProbeFailuresDelta
  rw [h]
  rfl

/-- C8 witness: both summaries absent yields the empty-entry probe
section. -/
theorem C8_witness :
    emitProbeFailuresDelta idIter none none =
      (["## Probe failures delta", "  No changes detected", ""], false) :=
  (C8_theorem [] []).2.2 none none rfl

/-! ### C6 — storage delta section -/

/-- A storage field the claim says is rendered: present on both sides
and with non-zero delta. -/
def sdFieldKept (bs cs : Row) (f : String) : Bool :=
  !(isNullJ (jget bs f)) && !(isNullJ (jget cs f)) &&
    !(Q.isZero ((toFloat64 (jget cs f)).sub (toFloat64 (jget bs f))))

/-- The storage section exactly as the claim words it, with the
rendered delta carrying its sign (`-` for negative deltas). -/
def claimStorageC6 (baseSum currSum : Option Row) : List String × Bool :=
  match baseSum, currSum with
  | some bs, some cs =>
    let kept := storageFields.filter (sdFieldKept bs cs)
    if kept.isEmpty then ([], false)
    else
      ("## Storage delta" ::
        kept.map (fun f =>
          let bf := toFloat64 (jget bs f)
          let delta := (toFloat64 (jget cs f)).sub bf
          let pct := if Q.isZero bf then 0 else (delta.div bf).mul 100
          "  " ++ trimSuffixGo f "_bytes" ++ ": " ++ fmtBytes (jget bs f) ++ " → " ++
            fmtBytes (jget cs f) ++ " (" ++ (if Q.ble 0 delta then "+" else "-") ++
            fmtBytes (JVal.num delta) ++ ", " ++ goFmtF 1 true pct ++ "%)") ++ [""],
        true)
  | _, _ => ([], false)

/-- The amended storage section: negative deltas render the humanized
absolute value with no sign character (only the percent carries the
minus); everything else as claimed. -/
def amendedStorageC6 (baseSum currSum : Option Row) : List String × Bool :=
  match baseSum, currSum with
  | some bs, some cs =>
    let kept := storageFields.filter (sdFieldKept bs cs)
    if kept.isEmpty then ([], false)
    else
      ("## Storage delta" ::
        kept.map (fun f =>
          let bf := toFloat64 (jget bs f)
          let delta := (toFloat64 (jget cs f)).sub bf
          let pct := if Q.isZero bf then 0 else (delta.div bf).mul 100
          "  " ++ trimSuffixGo f "_bytes" ++ ": " ++ fmtBytes (jget bs f) ++ " → " ++
            fmtBytes (jget cs f) ++ " (" ++ (if Q.ble 0 delta then "+" else "") ++
            fmtBytes (JVal.num delta) ++ ", " ++ goFmtF 1 true pct ++ "%)") ++ [""],
        true)
  | _, _ => ([], false)

/-- A baseline summary row with home 2.0K. -/
def c6Base : Row := [("type", JVal.str "summary"), ("home_bytes", JVal.num 2048)]

/-- A current summary row with home 1.0K (delta -1.0K). -/
def c6Curr : Row := [("type", JVal.str "summary"), ("home_bytes", JVal.num 1024)]

/-- C6 counterexample: a negative delta renders as `(1.0K, -50.0%)` —
the humanized delta does not carry its minus sign, though the claim
says the rendered delta carries its sign. -/
theorem C6_counterexample :
    emitStorageDelta (some c6Base) (some c6Curr) =
      (["## Storage delta", "  home: 2.0K → 1.0K (1.0K, -50.0%)", ""], true) ∧
    claimStorageC6 (some c6Base) (some c6Curr) =
      (["## Storage delta", "  home: 2.0K → 1.0K (-1.0K, -50.0%)", ""], true) ∧
    emitStorageDelta (some c6Base) (some c6Curr) ≠
      claimStorageC6 (some c6Base) (some c6Curr) := by
  refine ⟨by decide, by decide, by decide⟩

/-- `filterMap` by a kept-test splits into `filter` then `map`. -/
theorem filterMap_eq_map_filter {α β : Type} (f : α → Option β) (p : α → Bool)
    (g : α → β) (h : ∀ a, f a = if p a then some (g a) else none) :
    ∀ l : List α, l.filterMap f = (l.filter p).map g
  | [] => rfl
  | a :: t => by
    rw [List.filterMap_cons, h a]
    by_cases hp : p a = true
    · rw [if_pos hp, List.filter_cons_of_pos hp, List.map_cons,
        filterMap_eq_map_filter f p g h t]
    · have hp' : ¬ p a = true := hp
      rw [if_neg hp', List.filter_cons_of_neg hp', filterMap_eq_map_filter f p g h t]

/-- C6 (amended): the storage-delta section lists exactly the fixed
byte-valued fields present on both sides with non-zero delta, rendered
`field: <humanized base> → <humanized curr> (<sign><humanized |delta|>,
<±percent, 1 decimal>%)` where the sign character is `+` for a
non-negative delta and empty for a negative one, percent is
delta/baseline×100 (0 when baseline is 0); the section, header
included, is suppressed when either record is absent or no field has a
non-zero delta. -/
theorem C6_theorem (baseSum currSum : Option Row) :
    emitStorageDelta baseSum currSum = amendedStorageC6 baseSum currSum := by
  rcases baseSum with _ | bs
  · rfl
  rcases currSum with _ | cs
  · rfl
  simp only [emitStorageDelta, amendedStorageC6]
  have hsplit := filterMap_eq_map_filter
    (fun f =>
      let b := jget bs f
      let c := jget cs f
      if isNullJ b || isNullJ c then none
      else
        let bf := toFloat64 b
        let cf := toFloat64 c
        let delta := cf.sub bf
        if Q.isZero delta then none
        else
          let pct := if !(Q.isZero bf) then (delta.div bf).mul 100 else 0
          some (SDelta.mk (trimSuffixGo f "_bytes") b c delta pct))
    (sdFieldKept bs cs)
    (fun f =>
      SDelta.mk (trimSuffixGo f "_bytes") (jget bs f) (jget cs f)
        ((toFloat64 (jget cs f)).sub (toFloat64 (jget bs f)))
        (if Q.isZero (toFloat64 (jget bs f)) then 0
         else (((toFloat64 (jget cs f)).sub (toFloat64 (jget bs f))).div
           (toFloat64 (jget bs f))).mul 100))
    (fun f => by
      simp only [sdFieldKept]
      by_cases hb : isNullJ (jget bs f) = true
      · simp [hb]
      · by_cases hc : isNullJ (jget cs f) = true
        · simp [hb, hc]
        · by_cases hd : Q.isZero ((toFloat64 (jget cs f)).sub (toFloat64 (jget bs f))) = true
          · simp [hb, hc, hd]
          · by_cases hbf : Q.isZero (toFloat64 (jget bs f)) = true
            · simp [hb, hc, hd, hbf]
            · simp [hb, hc, hd, hbf])
    storageFields
  rw [hsplit, List.map_map]
  rcases hk : storageFields.filter (sdFieldKept bs cs) with _ | ⟨f0, rest⟩
  · rfl
  · simp only [List.map_cons, List.isEmpty_cons, List.map_map]
    rfl

/-! ### Shared list lemmas for the probe-entry claims -/

/-- Ordered insertion permutes. -/
theorem insOrd_perm {α : Type} (le : α → α → Bool) (a : α) :
    ∀ l, List.Perm (insOrd le a l) (a :: l)
  | [] => List.Perm.refl _
  | b :: t => by
    unfold insOrd
    by_cases h : le a b = true
    · rw [if_pos h]
    · rw [if_neg h]
      exact (List.Perm.cons b (insOrd_perm le a t)).trans (List.Perm.swap a b t)

/-- Insertion sort permutes. -/
theorem insSort_perm {α : Type} (le : α → α → Bool) :
    ∀ l, List.Perm (insSort le l) l
  | [] => List.Perm.refl _
  | a :: t => (insOrd_perm le a (insSort le t)).trans
      (List.Perm.cons a (insSort_perm le t))

/-- Membership passes through `sortProbes`. -/
theorem mem_sortProbes (status : String) (l : List String) (p : String) :
    p ∈ sortProbes status l ↔ p ∈ l :=
  (insSort_perm _ l).mem_iff

/-- `hasKeyR` is membership among the keys. -/
theorem hasKeyR_iff {ν : Type} :
    ∀ (m : List (String × ν)) (p : String), hasKeyR m p = true ↔ p ∈ keysOf m
  | [], p => by simp [hasKeyR, keysOf]
  | (k, v) :: t, p => by
    simp only [hasKeyR, keysOf, List.lookup_cons, List.map_cons, List.mem_cons]
    by_cases h : p = k
    · simp [h]
    · have hbeq : (p == k) = false := by
        simp [h]
      simp only [hbeq, h, false_or]
      exact hasKeyR_iff t p

/-- `probeFailureIsChanged` on two present items is the three-way
disjunction: count differs, normalized maps differ, or the
expected-state classification differs. -/
theorem probeChanged_some (o : Iter) (p : String) (b c : Row) :
    probeFailureIsChanged o p (some b) (some c) = true ↔
      (toInt (jget b "count") ≠ toInt (jget c "count") ∨
        mapsEqual (normExitCodes o (getMapGo b "exit_codes"))
          (normExitCodes o (getMapGo c "exit_codes")) = false ∨
        ExpectedState o p (getMapGo b "exit_codes") ≠
          ExpectedState o p (getMapGo c "exit_codes")) := by
  unfold probeFailureIsChanged
  by_cases h1 : toInt (jget b "count") = toInt (jget c "count")
  · simp only [h1, bne_self_eq_false, if_false, Bool.false_eq_true, ne_eq,
      not_true_eq_false, false_or]
    by_cases h2 : mapsEqual (normExitCodes o (getMapGo b "exit_codes"))
        (normExitCodes o (getMapGo c "exit_codes")) = true
    · simp only [h2, Bool.not_true, if_false, Bool.false_eq_true, bne_iff_ne, ne_eq]
      simp
    · have h2' : mapsEqual (normExitCodes o (getMapGo b "exit_codes"))
          (normExitCodes o (getMapGo c "exit_codes")) = false := by
        cases hmm : mapsEqual (normExitCodes o (getMapGo b "exit_codes"))
            (normExitCodes o (getMapGo c "exit_codes"))
        · rfl
        · exact absurd hmm h2
      simp [h2']
  · have hbne : (toInt (jget b "count") != toInt (jget c "count")) = true := by
      simp [bne_iff_ne, h1]
    simp [hbne, h1]

/-- `buildProbeFailureEntries` at the canonical oracle, spelled out. -/
theorem entries_id (basePF currPF : Option Row) :
    buildProbeFailureEntries idIter basePF currPF =
      (sortProbes "new"
          ((keysOf (probesIndex (getSliceGo currPF "items"))).filter
            (fun q => !(hasKeyR (probesIndex (getSliceGo basePF "items")) q)))).map
        (fun q => PEntry.mk "new" q none
          ((probesIndex (getSliceGo currPF "items")).lookup q)) ++
      (sortProbes "resolved"
          ((keysOf (probesIndex (getSliceGo basePF "items"))).filter
            (fun q => !(hasKeyR (probesIndex (getSliceGo currPF "items")) q)))).map
        (fun q => PEntry.mk "resolved" q
          ((probesIndex (getSliceGo basePF "items")).lookup q) none) ++
      (sortProbes "changed"
          ((keysOf (probesIndex (getSliceGo basePF "items"))).filter
            (fun q => hasKeyR (probesIndex (getSliceGo currPF "items")) q &&
              probeFailureIsChanged idIter q
                ((probesIndex (getSliceGo basePF "items")).lookup q)
                ((probesIndex (getSliceGo currPF "items")).lookup q)))).map
        (fun q => PEntry.mk "changed" q
          ((probesIndex (getSliceGo basePF "items")).lookup q)
          ((probesIndex (getSliceGo currPF "items")).lookup q)) := rfl

/-! ### C1 — changed entries and the no-op invariant -/

/-- Equality of normalized exit-code distributions as the claim words
it: as total functions from codes to counts, with missing codes
treated as count 0 on **both** sides. -/
def claimECEqC1 (a b : List (Int × Int)) : Bool :=
  a.all (fun kv => lookupI0 b kv.1 == kv.2) &&
    b.all (fun kv => lookupI0 a kv.1 == kv.2)

/-- The code's changed-condition for a probe present on both sides. -/
def codeChangedCond (p : String) (bIt cIt : Row) : Prop :=
  toInt (jget bIt "count") ≠ toInt (jget cIt "count") ∨
    mapsEqual (normExitCodes idIter (getMapGo bIt "exit_codes"))
      (normExitCodes idIter (getMapGo cIt "exit_codes")) = false ∨
    ExpectedState idIter p (getMapGo bIt "exit_codes") ≠
      ExpectedState idIter p (getMapGo cIt "exit_codes")

/-- Baseline item for the C1 counterexample: exit code 1 recorded with
count 0. -/
def c1BaseItem : Row :=
  [("probe", JVal.str "alpha.x"), ("count", JVal.num 5),
   ("exit_codes", JVal.obj [("1", JVal.num 0)])]

/-- Current item for the C1 counterexample: empty exit-code map. -/
def c1CurrItem : Row :=
  [("probe", JVal.str "alpha.x"), ("count", JVal.num 5),
   ("exit_codes", JVal.obj [])]

/-- Baseline `probe_failures_summary` for the C1 counterexample. -/
def c1BasePF : Row :=
  [("type", JVal.str "probe_failures_summary"), ("items", JVal.arr [JVal.obj c1BaseItem])]

/-- Current `probe_failures_summary` for the C1 counterexample. -/
def c1CurrPF : Row :=
  [("type", JVal.str "probe_failures_summary"), ("items", JVal.arr [JVal.obj c1CurrItem])]

/-- C1 counterexample: identical counts, identical normalized
distributions in the claim's missing-is-zero sense (`{1: 0}` vs `{}`),
identical classification — yet the code emits a `changed` entry,
because `mapsEqual` first compares the number of stored codes. -/
theorem C1_counterexample :
    toInt (jget c1BaseItem "count") = toInt (jget c1CurrItem "count") ∧
    claimECEqC1 (normExitCodes idIter (getMapGo c1BaseItem "exit_codes"))
      (normExitCodes idIter (getMapGo c1CurrItem "exit_codes")) = true ∧
    ExpectedState idIter "alpha.x" (getMapGo c1BaseItem "exit_codes") =
      ExpectedState idIter "alpha.x" (getMapGo c1CurrItem "exit_codes") ∧
    (buildProbeFailureEntries idIter (some c1BasePF) (some c1CurrPF)).map
      (fun e => (e.status, e.probe)) = [("changed", "alpha.x")] := by
  refine ⟨by decide, by decide, by decide, by decide⟩

/-- C1 (amended): for a probe present in both item lists, a `changed`
entry is produced iff the count differs, or the normalized integer-keyed
exit-code maps differ under the code's comparison (same number of
distinct parsed codes, and every baseline entry matching the current
map with missing codes treated as count 0), or the `ExpectedState`
classification differs; when none of these hold the probe appears in no
entry of the probe-failures diff. -/
theorem C1_theorem (basePF currPF : Option Row) (p : String)
    (hb : hasKeyR (probesIndex (getSliceGo basePF "items")) p = true)
    (hc : hasKeyR (probesIndex (getSliceGo currPF "items")) p = true) :
    ∃ bIt cIt,
      (probesIndex (getSliceGo basePF "items")).lookup p = some bIt ∧
      (probesIndex (getSliceGo currPF "items")).lookup p = some cIt ∧
      ((∃ e ∈ buildProbeFailureEntries idIter basePF currPF,
          e.status = "changed" ∧ e.probe = p) ↔ codeChangedCond p bIt cIt) ∧
      (¬ codeChangedCond p bIt cIt →
        ∀ e ∈ buildProbeFailureEntries idIter basePF currPF, e.probe ≠ p) := by
  obtain ⟨bIt, hbIt⟩ := Option.isSome_iff_exists.mp hb
  obtain ⟨cIt, hcIt⟩ := Option.isSome_iff_exists.mp hc
  refine ⟨bIt, cIt, hbIt, hcIt, ?_, ?_⟩
  · constructor
    · rintro ⟨e, he, hst, hpr⟩
      rw [entries_id] at he
      rcases List.mem_append.mp he with he' | hch
      · rcases List.mem_append.mp he' with hnew | hres
        · obtain ⟨q, _, hq⟩ := List.mem_map.mp hnew
          rw [← hq] at hst
          simp at hst
        · obtain ⟨q, _, hq⟩ := List.mem_map.mp hres
          rw [← hq] at hst
          simp at hst
      · obtain ⟨q, hqmem, hq⟩ := List.mem_map.mp hch
        have hqp : q = p := by
          rw [← hq] at hpr
          exact hpr
        subst hqp
        have hfil := (List.mem_filter.mp ((mem_sortProbes _ _ _).mp hqmem)).2
        have hichg : probeFailureIsChanged idIter q
            ((probesIndex (getSliceGo basePF "items")).lookup q)
            ((probesIndex (getSliceGo currPF "items")).lookup q) = true :=
          (Bool.and_eq_true _ _).mp hfil |>.2
        rw [hbIt, hcIt] at hichg
        exact (probeChanged_some idIter q bIt cIt).mp hichg
    · intro hcond
      refine ⟨PEntry.mk "changed" p
        ((probesIndex (getSliceGo basePF "items")).lookup p)
        ((probesIndex (getSliceGo currPF "items")).lookup p), ?_, rfl, rfl⟩
      rw [entries_id]
      refine List.mem_append.mpr (Or.inr (List.mem_map.mpr ⟨p, ?_, rfl⟩))
      refine (mem_sortProbes _ _ _).mpr (List.mem_filter.mpr ⟨(hasKeyR_iff _ _).mp hb, ?_⟩)
      refine (Bool.and_eq_true _ _).mpr ⟨hc, ?_⟩
      rw [hbIt, hcIt]
      exact (probeChanged_some idIter p bIt cIt).mpr hcond
  · intro hncond e he hep
    rw [entries_id] at he
    rcases List.mem_append.mp he with he' | hch
    · rcases List.mem_append.mp he' with hnew | hres
      · obtain ⟨q, hqmem, hq⟩ := List.mem_map.mp hnew
        have hqp : q = p := by rw [← hq] at hep; exact hep
        subst hqp
        have hfil := (List.mem_filter.mp ((mem_sortProbes _ _ _).mp hqmem)).2
        rw [hb] at hfil
        exact Bool.noConfusion hfil
      · obtain ⟨q, hqmem, hq⟩ := List.mem_map.mp hres
        have hqp : q = p := by rw [← hq] at hep; exact hep
        subst hqp
        have hfil := (List.mem_filter.mp ((mem_sortProbes _ _ _).mp hqmem)).2
        rw [hc] at hfil
        exact Bool.noConfusion hfil
    · obtain ⟨q, hqmem, hq⟩ := List.mem_map.mp hch
      have hqp : q = p := by rw [← hq] at hep; exact hep
      subst hqp
      have hfil := (List.mem_filter.mp ((mem_sortProbes _ _ _).mp hqmem)).2
      have hichg := (Bool.and_eq_true _ _).mp hfil |>.2
      rw [hbIt, hcIt] at hichg
      exact hncond ((probeChanged_some idIter q bIt cIt).mp hichg)

/-- C1 witness: a probe present on both sides with a count change is a
`changed` entry. -/
theorem C1_witness :
    ∃ bIt cIt,
      (probesIndex (getSliceGo (some c1BasePF) "items")).lookup "alpha.x" = some bIt ∧
      (probesIndex (getSliceGo (some c1CurrPF) "items")).lookup "alpha.x" = some cIt ∧
      ((∃ e ∈ buildProbeFailureEntries idIter (some c1BasePF) (some c1CurrPF),
          e.status = "changed" ∧ e.probe = "alpha.x") ↔
        codeChangedCond "alpha.x" bIt cIt) ∧
      (¬ codeChangedCond "alpha.x" bIt cIt →
        ∀ e ∈ buildProbeFailureEntries idIter (some c1BasePF) (some c1CurrPF),
          e.probe ≠ "alpha.x") :=
  C1_theorem (some c1BasePF) (some c1CurrPF) "alpha.x" (by decide) (by decide)

/-! ### C3 — ordering within a topic sub-section -/

/-- Inserting into a list sorted by a total transitive comparison keeps
it sorted. -/
theorem insOrd_pairwise {α : Type} (le : α → α → Bool)
    (total : ∀ a b, le a b = true ∨ le b a = true)
    (htrans : ∀ a b c, le a b = true → le b c = true → le a c = true) (a : α) :
    ∀ l, l.Pairwise (fun x y => le x y = true) →
      (insOrd le a l).Pairwise (fun x y => le x y = true)
  | [], _ => List.Pairwise.cons (by simp) List.Pairwise.nil
  | b :: t, hp => by
    unfold insOrd
    by_cases h : le a b = true
    · rw [if_pos h]
      refine List.Pairwise.cons ?_ hp
      intro x hx
      rcases List.mem_cons.mp hx with rfl | hxt
      · exact h
      · exact htrans a b x h (List.rel_of_pairwise_cons hp hxt)
    · rw [if_neg h]
      have hba : le b a = true := (total a b).resolve_left h
      refine List.Pairwise.cons ?_ (insOrd_pairwise le total htrans a t hp.of_cons)
      intro x hx
      rcases List.mem_cons.mp ((insOrd_perm le a t).mem_iff.mp hx) with rfl | hxt
      · exact hba
      · exact List.rel_of_pairwise_cons hp hxt

/-- Insertion sort sorts, for a total transitive comparison. -/
theorem insSort_pairwise {α : Type} (le : α → α → Bool)
    (total : ∀ a b, le a b = true ∨ le b a = true)
    (htrans : ∀ a b c, le a b = true → le b c = true → le a c = true) :
    ∀ l : List α, (insSort le l).Pairwise (fun x y => le x y = true)
  | [] => List.Pairwise.nil
  | a :: t => insOrd_pairwise le total htrans a (insSort le t)
      (insSort_pairwise le total htrans t)

/-- `probeKeyLE` is total. -/
theorem probeKeyLE_total (k1 k2 : Int × Int × String) :
    probeKeyLE k1 k2 = true ∨ probeKeyLE k2 k1 = true := by
  simp only [probeKeyLE, strLE, Bool.or_eq_true, Bool.and_eq_true,
    decide_eq_true_eq, beq_iff_eq]
  rcases lt_trichotomy k1.1 k2.1 with h | h | h
  · exact Or.inl (Or.inl h)
  · rcases lt_trichotomy k1.2.1 k2.2.1 with h2 | h2 | h2
    · exact Or.inl (Or.inr ⟨h, Or.inl h2⟩)
    · rcases le_total k1.2.2 k2.2.2 with h3 | h3
      · exact Or.inl (Or.inr ⟨h, Or.inr ⟨h2, h3⟩⟩)
      · exact Or.inr (Or.inr ⟨h.symm, Or.inr ⟨h2.symm, h3⟩⟩)
    · exact Or.inr (Or.inr ⟨h.symm, Or.inl h2⟩)
  · exact Or.inr (Or.inl h)

/-- `probeKeyLE` is transitive. -/
theorem probeKeyLE_trans (k1 k2 k3 : Int × Int × String)
    (h12 : probeKeyLE k1 k2 = true) (h23 : probeKeyLE k2 k3 = true) :
    probeKeyLE k1 k3 = true := by
  simp only [probeKeyLE, strLE, Bool.or_eq_true, Bool.and_eq_true,
    decide_eq_true_eq, beq_iff_eq] at h12 h23 ⊢
  rcases h12 with h12 | ⟨e12, h12⟩
  · rcases h23 with h23 | ⟨e23, _⟩
    · exact Or.inl (h12.trans h23)
    · exact Or.inl (e23 ▸ h12)
  · rcases h23 with h23 | ⟨e23, h23⟩
    · exact Or.inl (e12 ▸ h23)
    · refine Or.inr ⟨e12.trans e23, ?_⟩
      rcases h12 with h12 | ⟨f12, h12⟩
      · rcases h23 with h23 | ⟨f23, _⟩
        · exact Or.inl (h12.trans h23)
        · exact Or.inl (f23 ▸ h12)
      · rcases h23 with h23 | ⟨f23, h23⟩
        · exact Or.inl (f12 ▸ h23)
        · exact Or.inr ⟨f12.trans f23, h12.trans h23⟩

/-- Looking up after a single `appendAt`. -/
theorem appendAt_lookup :
    ∀ (m : List (String × List PEntry)) (k t : String) (e : PEntry),
      (appendAt m k e).lookup t =
        if k = t then some (((m.lookup t).getD []) ++ [e]) else m.lookup t
  | [], k, t, e => by
    by_cases h : k = t
    · simp [appendAt, h, List.lookup_cons]
    · have h2 : (t == k) = false := beq_eq_false_iff_ne.mpr (Ne.symm h)
      simp [appendAt, List.lookup_cons, h2, h]
  | (k', v) :: rest, k, t, e => by
    by_cases hk : k' = k
    · subst hk
      by_cases ht : t = k'
      · subst ht
        simp [appendAt, List.lookup_cons]
      · have hbeq : (t == k') = false := beq_eq_false_iff_ne.mpr ht
        simp [appendAt, List.lookup_cons, hbeq, if_neg (Ne.symm ht)]
    · by_cases ht : t = k'
      · subst ht
        simp [appendAt, if_neg hk, List.lookup_cons, if_neg (Ne.symm hk)]
      · have hbeq : (t == k') = false := beq_eq_false_iff_ne.mpr ht
        simp only [appendAt, if_neg hk, List.lookup_cons, hbeq]
        exact appendAt_lookup rest k t e

/-- The per-topic slice of the grouping fold is the filter of the
entries, in entry order. -/
theorem byTopic_lookup (o : Iter) :
    ∀ (entries : List PEntry) (m : List (String × List PEntry)) (t : String),
      ((entries.foldl (fun acc e => appendAt acc (ProbeTopic o e.probe) e) m).lookup t).getD []
        = ((m.lookup t).getD []) ++
            entries.filter (fun e => ProbeTopic o e.probe == t)
  | [], m, t => by simp
  | e :: rest, m, t => by
    rw [List.foldl_cons, byTopic_lookup o rest _ t]
    by_cases h : ProbeTopic o e.probe = t
    · rw [appendAt_lookup m _ t e, if_pos h, List.filter_cons_of_pos (by simp [h])]
      simp [List.append_assoc]
    · rw [appendAt_lookup m _ t e, if_neg h, List.filter_cons_of_neg (by simp [h])]

/-- The amended sort key of a rendered entry: status rank first
(new, resolved, changed), then severity rank, then probe. -/
def amendedKeyC3 (e : PEntry) : Int × Int × String :=
  ((probeSortKey e.probe e.status).2.1, (probeSortKey e.probe e.status).1,
    (probeSortKey e.probe e.status).2.2)

/-- Non-strict lexicographic order on the amended keys. -/
def amendedKeyLE (a b : Int × Int × String) : Prop :=
  a.1 < b.1 ∨ (a.1 = b.1 ∧ (a.2.1 < b.2.1 ∨ (a.2.1 = b.2.1 ∧ a.2.2 ≤ b.2.2)))

/-- Baseline summary for the C3 counterexample (one medium-severity
probe that resolves). -/
def c3BasePF : Row :=
  [("type", JVal.str "probe_failures_summary"),
   ("items", JVal.arr [JVal.obj
     [("probe", JVal.str "network.ifconfig_en0"), ("count", JVal.num 1),
      ("exit_codes", JVal.obj [("1", JVal.num 1)])]])]

/-- Current summary for the C3 counterexample (one new low-severity
probe in the same topic). -/
def c3CurrPF : Row :=
  [("type", JVal.str "probe_failures_summary"),
   ("items", JVal.arr [JVal.obj
     [("probe", JVal.str "network.zzz"), ("count", JVal.num 1)]])]

/-- C3 counterexample: inside the single `Network` sub-section the new
low-severity probe (claimed key (2,0,·)) is rendered before the
resolved medium-severity probe (claimed key (1,1,·)), so the section is
not in ascending order of the claimed (severity, status, probe) key:
status outranks severity in the code. -/
theorem C3_counterexample :
    ((((buildProbeFailureEntries idIter (some c3BasePF) (some c3CurrPF)).foldl
        (fun m e => appendAt m (ProbeTopic idIter e.probe) e) []).lookup
          "Network").getD []).map (fun e => (e.status, e.probe)) =
      [("new", "network.zzz"), ("resolved", "network.ifconfig_en0")] ∧
    probeSortKey "network.zzz" "new" = (2, 0, "network.zzz") ∧
    probeSortKey "network.ifconfig_en0" "resolved" = (1, 1, "network.ifconfig_en0") ∧
    probeKeyLE (2, 0, "network.zzz") (1, 1, "network.ifconfig_en0") = false := by
  refine ⟨by decide, by decide, by decide, by decide⟩

/-- A same-status `probeKeyLE` fact transfers to the amended key order. -/
theorem probeKeyLE_to_amended (st a b : String) (bi ci bi' ci' : Option Row)
    (h : probeKeyLE (probeSortKey a st) (probeSortKey b st) = true) :
    amendedKeyLE (amendedKeyC3 (PEntry.mk st a bi ci))
      (amendedKeyC3 (PEntry.mk st b bi' ci')) := by
  simp only [probeKeyLE, strLE, Bool.or_eq_true, Bool.and_eq_true,
    decide_eq_true_eq, beq_iff_eq, probeSortKey] at h
  simp only [amendedKeyC3, amendedKeyLE, probeSortKey]
  rcases h with h | ⟨he, h2⟩
  · exact Or.inr ⟨by trivial, Or.inl h⟩
  · rcases h2 with h2 | ⟨_, h3⟩
    · exact absurd h2 (lt_irrefl _)
    · exact Or.inr ⟨by trivial, Or.inr ⟨he, h3⟩⟩

/-- The status component of the amended key, per status. -/
theorem statusRank_eval (q : String) (bi ci : Option Row) :
    (amendedKeyC3 (PEntry.mk "new" q bi ci)).1 = 0 ∧
    (amendedKeyC3 (PEntry.mk "resolved" q bi ci)).1 = 1 ∧
    (amendedKeyC3 (PEntry.mk "changed" q bi ci)).1 = 2 :=
  ⟨rfl, rfl, rfl⟩

/-- A sorted status block of the diff, mapped to entries, is ordered by
the amended key. -/
theorem block_pairwise (st : String) (l : List String)
    (mk : String → PEntry) (hmk : ∀ q, ∃ bi ci, mk q = PEntry.mk st q bi ci) :
    ((sortProbes st l).map mk).Pairwise
      (fun a b => amendedKeyLE (amendedKeyC3 a) (amendedKeyC3 b)) := by
  refine List.pairwise_map.mpr ?_
  have hs := insSort_pairwise
    (fun a b => probeKeyLE (probeSortKey a st) (probeSortKey b st))
    (fun a b => probeKeyLE_total _ _)
    (fun a b c hab hbc => probeKeyLE_trans _ _ _ hab hbc) l
  refine hs.imp ?_
  intro a b h
  obtain ⟨bi, ci, ha⟩ := hmk a
  obtain ⟨bi', ci', hb⟩ := hmk b
  rw [ha, hb]
  exact probeKeyLE_to_amended st a b bi ci bi' ci' h

/-- The full entry list is ordered by the amended key. -/
theorem C3_entries_pairwise (basePF currPF : Option Row) :
    (buildProbeFailureEntries idIter basePF currPF).Pairwise
      (fun a b => amendedKeyLE (amendedKeyC3 a) (amendedKeyC3 b)) := by
  rw [entries_id]
  refine List.pairwise_append.mpr ⟨List.pairwise_append.mpr ⟨?_, ?_, ?_⟩, ?_, ?_⟩
  · exact block_pairwise "new" _ _ (fun q => ⟨none, _, rfl⟩)
  · exact block_pairwise "resolved" _ _ (fun q => ⟨_, none, rfl⟩)
  · intro a ha b hb
    obtain ⟨qa, _, hqa⟩ := List.mem_map.mp ha
    obtain ⟨qb, _, hqb⟩ := List.mem_map.mp hb
    rw [← hqa, ← hqb]
    exact Or.inl (show (0 : Int) < 1 by norm_num)
  · exact block_pairwise "changed" _ _ (fun q => ⟨_, _, rfl⟩)
  · intro a ha b hb
    obtain ⟨qb, _, hqb⟩ := List.mem_map.mp hb
    rcases List.mem_append.mp ha with hnew | hres
    · obtain ⟨qa, _, hqa⟩ := List.mem_map.mp hnew
      rw [← hqa, ← hqb]
      exact Or.inl (show (0 : Int) < 2 by norm_num)
    · obtain ⟨qa, _, hqa⟩ := List.mem_map.mp hres
      rw [← hqa, ← hqb]
      exact Or.inl (show (1 : Int) < 2 by norm_num)

/-- C3 (amended): within each topic sub-section of the rendered
probe-failures delta the entries appear in ascending lexicographic
order of (status rank: new=0, resolved=1, changed=2; severity rank:
high=0, medium=1, low=2; probe identifier) — status groups first, then
severity, then alphabetical. -/
theorem C3_theorem (basePF currPF : Option Row) (t : String) :
    ((((buildProbeFailureEntries idIter basePF currPF).foldl
        (fun m e => appendAt m (ProbeTopic idIter e.probe) e) []).lookup t).getD
      []).Pairwise (fun a b => amendedKeyLE (amendedKeyC3 a) (amendedKeyC3 b)) := by
  rw [byTopic_lookup idIter _ [] t]
  simp only [List.lookup_nil, Option.getD_none, List.nil_append]
  exact (C3_entries_pairwise basePF currPF).filter _

/-! ### C9 — determinism under Go map iteration order -/

/-- `all` only depends on the multiset of elements. -/
theorem perm_all {α : Type} {l1 l2 : List α} (h : List.Perm l1 l2) (p : α → Bool) :
    l1.all p = l2.all p := by
  cases h1 : l1.all p <;> cases h2 : l2.all p
  · rfl
  · rw [List.all_eq_true] at h2
    have hh : l1.all p = true :=
      List.all_eq_true.mpr (fun x hx => h2 x (h.mem_iff.mp hx))
    rw [h1] at hh
    exact hh
  · rw [List.all_eq_true] at h1
    have hh : l2.all p = true :=
      List.all_eq_true.mpr (fun x hx => h1 x (h.mem_iff.mpr hx))
    rw [h2] at hh
    exact hh.symm
  · rfl

/-- `any` only depends on the multiset of elements. -/
theorem perm_any {α : Type} {l1 l2 : List α} (h : List.Perm l1 l2) (p : α → Bool) :
    l1.any p = l2.any p := by
  cases h1 : l1.any p <;> cases h2 : l2.any p
  · rfl
  · rw [List.any_eq_true] at h2
    obtain ⟨x, hx, hpx⟩ := h2
    have hh : l1.any p = true := List.any_eq_true.mpr ⟨x, h.mem_iff.mpr hx, hpx⟩
    rw [h1] at hh
    exact hh
  · rw [List.any_eq_true] at h1
    obtain ⟨x, hx, hpx⟩ := h1
    have hh : l2.any p = true := List.any_eq_true.mpr ⟨x, h.mem_iff.mp hx, hpx⟩
    rw [h2] at hh
    exact hh.symm
  · rfl

/-- `isEmpty` only depends on the multiset of elements. -/
theorem perm_isEmpty {α : Type} {l1 l2 : List α} (h : List.Perm l1 l2) :
    l1.isEmpty = l2.isEmpty := by
  cases l1 with
  | nil =>
    have := h.length_eq
    cases l2 with
    | nil => rfl
    | cons x t => simp at this
  | cons x t =>
    cases l2 with
    | nil =>
      have := h.length_eq
      simp at this
    | cons y s => rfl

/-- Two sorted lists with the same multiset of elements coincide, for
an antisymmetric comparison. -/
theorem pairwise_perm_eq {α : Type} (le : α → α → Bool)
    (anti : ∀ a b, le a b = true → le b a = true → a = b) :
    ∀ l1 l2, List.Perm l1 l2 → l1.Pairwise (fun x y => le x y = true) →
      l2.Pairwise (fun x y => le x y = true) → l1 = l2
  | [], l2, hp, _, _ => (hp.nil_eq).symm ▸ rfl
  | a :: t1, [], hp, _, _ => absurd hp.symm (by simp [List.Perm.nil_eq, List.Perm])
  | a :: t1, b :: t2, hp, h1, h2 => by
    have hab : a = b := by
      by_cases heq : a = b
      · exact heq
      · have hbmem : b ∈ a :: t1 := hp.mem_iff.mpr (List.mem_cons_self b t2)
        have hamem : a ∈ b :: t2 := hp.mem_iff.mp (List.mem_cons_self a t1)
        have hbt1 : b ∈ t1 := by
          rcases List.mem_cons.mp hbmem with h | h
          · exact absurd h.symm heq
          · exact h
        have hat2 : a ∈ t2 := by
          rcases List.mem_cons.mp hamem with h | h
          · exact absurd h heq
          · exact h
        exact anti a b (List.rel_of_pairwise_cons h1 hbt1)
          (List.rel_of_pairwise_cons h2 hat2)
    subst hab
    have ht := hp.cons_inv
    rw [pairwise_perm_eq le anti t1 t2 ht h1.of_cons h2.of_cons]

/-- Insertion sort is a function of the input multiset, for a total
transitive antisymmetric comparison. -/
theorem insSort_perm_eq {α : Type} (le : α → α → Bool)
    (total : ∀ a b, le a b = true ∨ le b a = true)
    (htrans : ∀ a b c, le a b = true → le b c = true → le a c = true)
    (anti : ∀ a b, le a b = true → le b a = true → a = b)
    {l1 l2 : List α} (hp : List.Perm l1 l2) :
    insSort le l1 = insSort le l2 :=
  pairwise_perm_eq le anti _ _
    ((insSort_perm le l1).trans (hp.trans (insSort_perm le l2).symm))
    (insSort_pairwise le total htrans l1) (insSort_pairwise le total htrans l2)

/-- Membership in a set-fold of `insSet`. -/
theorem mem_insSet {α : Type} [BEq α] [LawfulBEq α] (s : List α) (a x : α) :
    x ∈ insSet s a ↔ x ∈ s ∨ x = a := by
  unfold insSet
  by_cases h : s.contains a = true
  · rw [if_pos h]
    constructor
    · exact Or.inl
    · rintro (hx | rfl)
      · exact hx
      · exact List.mem_of_elem_eq_true h
  · rw [if_neg h]
    simp [List.mem_append]

/-- `insSet` preserves distinctness. -/
theorem nodup_insSet {α : Type} [BEq α] [LawfulBEq α] (s : List α) (a : α)
    (h : s.Nodup) : (insSet s a).Nodup := by
  unfold insSet
  by_cases hc : s.contains a = true
  · rw [if_pos hc]
    exact h
  · rw [if_neg hc]
    refine List.Nodup.append h (List.nodup_singleton a) ?_
    intro x hx hxa
    rcases List.mem_singleton.mp hxa with rfl
    exact hc (List.elem_eq_true_of_mem hx)

/-- Membership in a fold of `insSet`. -/
theorem mem_setFold {α : Type} [BEq α] [LawfulBEq α] :
    ∀ (l : List α) (init : List α) (x : α),
      x ∈ l.foldl insSet init ↔ x ∈ init ∨ x ∈ l
  | [], init, x => by simp
  | a :: t, init, x => by
    rw [List.foldl_cons, mem_setFold t (insSet init a) x, mem_insSet]
    constructor
    · rintro ((h | rfl) | h)
      · exact Or.inl h
      · exact Or.inr (List.mem_cons_self _ _)
      · exact Or.inr (List.mem_cons_of_mem _ h)
    · rintro (h | h)
      · exact Or.inl (Or.inl h)
      · rcases List.mem_cons.mp h with rfl | h
        · exact Or.inl (Or.inr rfl)
        · exact Or.inr h

/-- A fold of `insSet` over a distinct start stays distinct. -/
theorem nodup_setFold {α : Type} [BEq α] [LawfulBEq α] :
    ∀ (l : List α) (init : List α), init.Nodup → (l.foldl insSet init).Nodup
  | [], _, h => h
  | a :: t, init, h => nodup_setFold t (insSet init a) (nodup_insSet init a h)

/-- Set-folds over permuted inputs are permutations of one another. -/
theorem setFold_perm {α : Type} [BEq α] [LawfulBEq α] {l1 l2 : List α}
    (h : List.Perm l1 l2) (init : List α) (hn : init.Nodup) :
    List.Perm (l1.foldl insSet init) (l2.foldl insSet init) := by
  refine (List.perm_ext_iff_of_nodup (nodup_setFold l1 init hn)
    (nodup_setFold l2 init hn)).mpr ?_
  intro a
  rw [mem_setFold, mem_setFold, h.mem_iff]

/-- Looking up after `upsert`. -/
theorem lookup_upsert {κ ν : Type} [DecidableEq κ] [BEq κ] [LawfulBEq κ] :
    ∀ (m : List (κ × ν)) (k p : κ) (v : ν),
      (upsert m k v).lookup p = if p = k then some v else m.lookup p
  | [], k, p, v => by
    by_cases h : p = k
    · simp [upsert, List.lookup_cons, h]
    · simp [upsert, List.lookup_cons, h, beq_eq_false_iff_ne.mpr h]
  | (k', v') :: t, k, p, v => by
    by_cases hk : k' = k
    · subst hk
      by_cases h : p = k'
      · simp [upsert, List.lookup_cons, h]
      · simp [upsert, List.lookup_cons, h, beq_eq_false_iff_ne.mpr h]
    · by_cases h : p = k'
      · subst h
        have : ¬ p = k := fun hh => hk (hh ▸ rfl)
        simp [upsert, hk, List.lookup_cons, this]
      · simp only [upsert, if_neg hk, List.lookup_cons,
          beq_eq_false_iff_ne.mpr h]
        exact lookup_upsert t k p v

/-- Keys after `upsert`. -/
theorem mem_keys_upsert {κ ν : Type} [DecidableEq κ] :
    ∀ (m : List (κ × ν)) (k p : κ) (v : ν),
      p ∈ keysOf (upsert m k v) ↔ p ∈ keysOf m ∨ p = k
  | [], k, p, v => by simp [upsert, keysOf]
  | (k', v') :: t, k, p, v => by
    by_cases hk : k' = k
    · subst hk
      simp only [upsert, if_pos rfl, keysOf, List.map_cons, List.mem_cons]
      simp [keysOf]
      tauto
    · simp only [upsert, if_neg hk, keysOf, List.map_cons, List.mem_cons]
      rw [show (List.map (fun kv => kv.1) (upsert t k v)) = keysOf (upsert t k v) from rfl,
        mem_keys_upsert t k p v]
      tauto

/-- `upsert` keeps the keys distinct. -/
theorem nodup_keys_upsert {κ ν : Type} [DecidableEq κ] :
    ∀ (m : List (κ × ν)) (k : κ) (v : ν),
      (keysOf m).Nodup → (keysOf (upsert m k v)).Nodup
  | [], k, v, _ => List.nodup_singleton k
  | (k', v') :: t, k, v, h => by
    have h' : k' ∉ keysOf t ∧ (keysOf t).Nodup := by
      have := List.nodup_cons.mp (show ((k' : κ) :: keysOf t).Nodup from h)
      exact this
    by_cases hk : k' = k
    · subst hk
      have hu : upsert ((k', v') :: t) k' v = (k', v) :: t := by
        simp [upsert]
      rw [hu]
      show ((k' : κ) :: keysOf t).Nodup
      exact List.nodup_cons.mpr ⟨h'.1, h'.2⟩
    · have hu : upsert ((k', v') :: t) k v = (k', v') :: upsert t k v := by
        simp [upsert, hk]
      rw [hu]
      show ((k' : κ) :: keysOf (upsert t k v)).Nodup
      refine List.nodup_cons.mpr ⟨?_, nodup_keys_upsert t k v h'.2⟩
      intro hmem
      rcases (mem_keys_upsert t k k' v).mp hmem with h2 | h2
      · exact h'.1 h2
      · exact hk h2

/-- `lookup` is order-independent when the keys are distinct. -/
theorem lookup_perm {κ ν : Type} [BEq κ] [LawfulBEq κ] {l1 l2 : List (κ × ν)}
    (h : List.Perm l1 l2) (nd : (keysOf l1).Nodup) (k : κ) :
    l1.lookup k = l2.lookup k := by
  induction h with
  | nil => rfl
  | cons x h ih =>
    rcases x with ⟨xk, xv⟩
    rw [List.lookup_cons, List.lookup_cons]
    cases hbeq : k == xk
    · exact ih (List.nodup_cons.mp nd).2
    · rfl
  | swap x y l =>
    rcases x with ⟨xk, xv⟩
    rcases y with ⟨yk, yv⟩
    have hxy : yk ≠ xk := by
      have := (List.nodup_cons.mp nd).1
      intro hh
      exact this (hh ▸ List.mem_cons_self _ _)
    rw [List.lookup_cons, List.lookup_cons, List.lookup_cons, List.lookup_cons]
    cases hby : k == yk <;> cases hbx : k == xk <;> try rfl
    · exact absurd ((beq_iff_eq.mp hby).symm.trans (beq_iff_eq.mp hbx)) hxy
  | trans h1 h2 ih1 ih2 =>
    rw [ih1 nd]
    refine ih2 ?_
    have hmap := h1.map (fun kv : κ × ν => kv.1)
    exact hmap.nodup_iff.mp nd

/-- A step function that skips `none` results folds like the
`filterMap`. -/
theorem foldl_filterMap {α β γ : Type} (f : α → Option β) (step : γ → β → γ) :
    ∀ (l : List α) (init : γ),
      l.foldl (fun m a => match f a with | some b => step m b | none => m) init =
        (l.filterMap f).foldl step init
  | [], _ => rfl
  | a :: t, init => by
    rw [List.foldl_cons, List.filterMap_cons]
    cases hf : f a
    · exact foldl_filterMap f step t init
    · exact foldl_filterMap f step t _

/-- Folding `upsert` over entries with pairwise-distinct keys appends
them in order. -/
theorem buildMap_nodup {κ ν : Type} [DecidableEq κ] :
    ∀ (l m : List (κ × ν)),
      (∀ kv ∈ l, kv.1 ∉ keysOf m) → (keysOf l).Nodup →
      l.foldl (fun m kv => upsert m kv.1 kv.2) m = m ++ l
  | [], m, _, _ => by simp
  | kv :: t, m, hdisj, hnd => by
    rw [List.foldl_cons]
    have hnotin : kv.1 ∉ keysOf m := hdisj kv (List.mem_cons_self _ _)
    have hup : upsert m kv.1 kv.2 = m ++ [kv] := by
      clear hdisj hnd
      induction m with
      | nil => rfl
      | cons x rest ih =>
        have hx : x.1 ≠ kv.1 := by
          intro hh
          exact hnotin (hh ▸ List.mem_cons_self _ _)
        have hrest : kv.1 ∉ keysOf rest := by
          intro hh
          exact hnotin (List.mem_cons_of_mem _ hh)
        calc upsert (x :: rest) kv.1 kv.2
            = x :: upsert rest kv.1 kv.2 := by
              rcases x with ⟨xk, xv⟩
              simp [upsert, hx]
          _ = x :: (rest ++ [kv]) := by rw [ih hrest]
          _ = (x :: rest) ++ [kv] := rfl
    rw [hup]
    have hstep := buildMap_nodup t (m ++ [kv])
      (fun kw hkw => by
        intro hmem
        rw [show keysOf (m ++ [kv]) = keysOf m ++ [kv.1] by simp [keysOf]] at hmem
        rcases List.mem_append.mp hmem with h | h
        · exact hdisj kw (List.mem_cons_of_mem _ hkw) h
        · rcases List.mem_singleton.mp h with heq
          have hthis : kv.1 ∉ keysOf t :=
            (List.nodup_cons.mp (show (kv.1 :: keysOf t).Nodup from hnd)).1
          exact hthis (heq ▸ List.mem_map.mpr ⟨kw, hkw, rfl⟩))
      (List.nodup_cons.mp hnd).2
    rw [hstep, List.append_assoc]
    rfl

/-- The normalization view of one exit-code entry. -/
def ecNormF (kv : String × JVal) : Option (Int × Int) :=
  (parseGoInt kv.1).map (fun n => (n, toInt kv.2))

/-- No two keys of an exit-code map parse to the same integer. -/
def InjParse (ec : List (String × JVal)) : Prop :=
  ((keysOf ec).filterMap parseGoInt).Nodup

/-- Keys of the normalized entries are the parsed keys. -/
theorem keys_filterMap_norm :
    ∀ ec : List (String × JVal),
      keysOf (ec.filterMap ecNormF) = (keysOf ec).filterMap parseGoInt
  | [] => rfl
  | kv :: t => by
    have ih := keys_filterMap_norm t
    show keysOf (List.filterMap ecNormF (kv :: t)) =
      List.filterMap parseGoInt (kv.1 :: keysOf t)
    rw [List.filterMap_cons, List.filterMap_cons]
    cases hp : parseGoInt kv.1 with
    | none =>
      rw [show ecNormF kv = none from by simp [ecNormF, hp]]
      exact ih
    | some n =>
      rw [show ecNormF kv = some (n, toInt kv.2) from by simp [ecNormF, hp]]
      show n :: keysOf (List.filterMap ecNormF t) = n :: _
      rw [ih]

/-- Under injective parsing, `normExitCodes` is the `filterMap` of the
iteration sequence. -/
theorem normExitCodes_eq_filterMap (o : Iter) (ec : List (String × JVal))
    (hnd : ((keysOf (o.ecs ec)).filterMap parseGoInt).Nodup) :
    normExitCodes o ec = (o.ecs ec).filterMap ecNormF := by
  unfold normExitCodes
  have h1 : (o.ecs ec).foldl
      (fun out kv =>
        match parseGoInt kv.1 with
        | some kk => upsert out kk (toInt kv.2)
        | none => out) [] =
      ((o.ecs ec).filterMap ecNormF).foldl (fun m kv => upsert m kv.1 kv.2) [] := by
    rw [← foldl_filterMap ecNormF (fun m kv => upsert m kv.1 kv.2) (o.ecs ec) []]
    congr 1
    funext m kv
    cases hp : parseGoInt kv.1 <;> simp [ecNormF, hp]
  rw [h1, buildMap_nodup _ []
    (by
      intro kv _ hmem
      simp [keysOf] at hmem)
    (by rw [keys_filterMap_norm]; exact hnd)]
  simp

/-- Under a valid oracle and injective parsing, the normalized map is a
permutation of the canonical one, with distinct keys. -/
theorem norm_perm (o : Iter) (hv : o.Valid) (ec : List (String × JVal))
    (hinj : InjParse ec) :
    List.Perm (normExitCodes o ec) (normExitCodes idIter ec) ∧
      (keysOf (normExitCodes o ec)).Nodup := by
  have hperm : List.Perm (o.ecs ec) ec := hv.2.1 ec
  have hkeysperm : List.Perm ((keysOf (o.ecs ec)).filterMap parseGoInt)
      ((keysOf ec).filterMap parseGoInt) :=
    (hperm.map (fun kv : String × JVal => kv.1)).filterMap parseGoInt
  have hndo : ((keysOf (o.ecs ec)).filterMap parseGoInt).Nodup :=
    hkeysperm.nodup_iff.mpr hinj
  rw [normExitCodes_eq_filterMap o ec hndo, normExitCodes_eq_filterMap idIter ec hinj]
  refine ⟨hperm.filterMap ecNormF, ?_⟩
  rw [keys_filterMap_norm]
  exact hndo

/-- `all` with pointwise-equal predicates. -/
theorem all_congr_mem {α : Type} :
    ∀ {l : List α} {p q : α → Bool}, (∀ x ∈ l, p x = q x) → l.all p = l.all q
  | [], _, _, _ => rfl
  | a :: t, p, q, h => by
    rw [List.all_cons, List.all_cons, h a (List.mem_cons_self _ _),
      all_congr_mem (fun x hx => h x (List.mem_cons_of_mem _ hx))]

/-- `mapsEqual` only depends on the two maps as key multisets and
lookup functions. -/
theorem mapsEqual_congr {a a' b b' : List (Int × Int)}
    (ha : List.Perm a a') (hb : List.Perm b b') (ndb : (keysOf b).Nodup) :
    mapsEqual a b = mapsEqual a' b' := by
  unfold mapsEqual
  rw [ha.length_eq, hb.length_eq, perm_all ha]
  have hall := all_congr_mem (l := a')
    (p := fun kv => lookupI0 b kv.1 == kv.2)
    (q := fun kv => lookupI0 b' kv.1 == kv.2)
    (fun kv _ => by
      show (lookupI0 b kv.1 == kv.2) = (lookupI0 b' kv.1 == kv.2)
      unfold lookupI0
      rw [lookup_perm hb ndb kv.1])
  rw [hall]

/-- The scanned code set respects permutations of the map. -/
theorem ecCodeSet_eq :
    ∀ (l : List (String × JVal)) (init : List Int),
      l.foldl
        (fun s kv =>
          match parseGoInt kv.1 with
          | some c => insSet s c
          | none => s) init =
        ((keysOf l).filterMap parseGoInt).foldl insSet init
  | [], _ => rfl
  | kv :: t, init => by
    show List.foldl _ _ (kv :: t) =
      List.foldl insSet init (List.filterMap parseGoInt (kv.1 :: keysOf t))
    rw [List.foldl_cons, List.filterMap_cons]
    cases hp : parseGoInt kv.1
    · simp only [hp]
      exact ecCodeSet_eq t init
    · simp only [hp, List.foldl_cons]
      exact ecCodeSet_eq t _

/-- `ExpectedState` is independent of the map iteration order. -/
theorem expectedState_inv (o : Iter) (hv : o.Valid) (p : String)
    (ec : List (String × JVal)) :
    ExpectedState o p ec = ExpectedState idIter p ec := by
  unfold ExpectedState
  have hperm : List.Perm (ecCodeSet (o.ecs ec)) (ecCodeSet (idIter.ecs ec)) := by
    unfold ecCodeSet
    rw [ecCodeSet_eq, ecCodeSet_eq]
    exact setFold_perm
      (((hv.2.1 ec).map (fun kv : String × JVal => kv.1)).filterMap parseGoInt)
      [] List.nodup_nil
  simp only [perm_isEmpty hperm, perm_all hperm, perm_any hperm]

/-- `ExpectedSuffix` is independent of the map iteration order. -/
theorem expectedSuffix_inv (o : Iter) (hv : o.Valid) (p : String)
    (ec : List (String × JVal)) :
    ExpectedSuffix o p ec = ExpectedSuffix idIter p ec := by
  unfold ExpectedSuffix
  rw [expectedState_inv o hv p ec]

/-- `probeFailureIsChanged` is independent of the map iteration order
when the exit-code keys parse injectively. -/
theorem probeChanged_inv (o : Iter) (hv : o.Valid) (p : String)
    (bIt cIt : Option Row)
    (hb : ∀ r, bIt = some r → InjParse (getMapGo r "exit_codes"))
    (hc : ∀ r, cIt = some r → InjParse (getMapGo r "exit_codes")) :
    probeFailureIsChanged o p bIt cIt = probeFailureIsChanged idIter p bIt cIt := by
  rcases bIt with _ | b
  · rcases cIt with _ | c <;> rfl
  rcases cIt with _ | c
  · rfl
  obtain ⟨hpb, hndb⟩ := norm_perm o hv _ (hb b rfl)
  obtain ⟨hpc, hndc⟩ := norm_perm o hv _ (hc c rfl)
  simp only [probeFailureIsChanged, mapsEqual_congr hpb hpc hndc,
    expectedState_inv o hv p (getMapGo b "exit_codes"),
    expectedState_inv o hv p (getMapGo c "exit_codes")]

/-- `intLE` is total. -/
theorem intLE_total (a b : Int) : intLE a b = true ∨ intLE b a = true := by
  simp only [intLE, decide_eq_true_eq]
  omega

/-- `intLE` is transitive. -/
theorem intLE_trans (a b c : Int) (h1 : intLE a b = true) (h2 : intLE b c = true) :
    intLE a c = true := by
  simp only [intLE, decide_eq_true_eq] at h1 h2 ⊢
  omega

/-- `intLE` is antisymmetric. -/
theorem intLE_anti (a b : Int) (h1 : intLE a b = true) (h2 : intLE b a = true) :
    a = b := by
  simp only [intLE, decide_eq_true_eq] at h1 h2
  omega

/-- `strLE` is total. -/
theorem strLE_total (a b : String) : strLE a b = true ∨ strLE b a = true := by
  simp only [strLE, decide_eq_true_eq]
  exact le_total a b

/-- `strLE` is transitive. -/
theorem strLE_trans (a b c : String) (h1 : strLE a b = true) (h2 : strLE b c = true) :
    strLE a c = true := by
  simp only [strLE, decide_eq_true_eq] at h1 h2 ⊢
  exact le_trans h1 h2

/-- `strLE` is antisymmetric. -/
theorem strLE_anti (a b : String) (h1 : strLE a b = true) (h2 : strLE b a = true) :
    a = b := by
  simp only [strLE, decide_eq_true_eq] at h1 h2
  exact le_antisymm h1 h2

/-- `formatExitCodes` is independent of the map iteration order. -/
theorem formatExitCodes_inv (o : Iter) (hv : o.Valid) (ec : List (String × JVal)) :
    formatExitCodes o ec = formatExitCodes idIter ec := by
  unfold formatExitCodes
  have hs : insSort intLE ((o.ecs ec).filterMap (fun kv => parseGoInt kv.1)) =
      insSort intLE (ec.filterMap (fun kv => parseGoInt kv.1)) :=
    insSort_perm_eq intLE intLE_total intLE_trans intLE_anti
      ((hv.2.1 ec).filterMap (fun kv => parseGoInt kv.1))
  simp only [hs, idIter, id]

/-- Keys of a key-value pairing map are the keys themselves. -/
theorem keysOf_map_pair {α ν : Type} (l : List α) (f : α → ν) :
    keysOf (l.map (fun a => (a, f a))) = l := by
  induction l with
  | nil => rfl
  | cons a t ih =>
    simp only [keysOf, List.map_cons, List.map_map] at ih ⊢
    exact congrArg (a :: ·) ih

/-- The union-of-keys set built by `exitCodesDelta`. -/
def allCodesGo (o : Iter) (baseEC currEC : List (String × JVal)) : List String :=
  (o.ecs currEC).foldl (fun s kv => insSet s kv.1)
    ((o.ecs baseEC).foldl (fun s kv => insSet s kv.1) [])

/-- Folding key insertions is folding `insSet` over the keys. -/
theorem setFold_keys (l : List (String × JVal)) (init : List String) :
    l.foldl (fun s kv => insSet s kv.1) init = (keysOf l).foldl insSet init := by
  rw [keysOf, List.foldl_map]

/-- The key union is duplicate-free. -/
theorem allCodes_nodup (o : Iter) (b c : List (String × JVal)) :
    (allCodesGo o b c).Nodup := by
  unfold allCodesGo
  rw [setFold_keys, setFold_keys]
  exact nodup_setFold _ _ (nodup_setFold _ [] List.nodup_nil)

/-- The key union is iteration-order independent up to permutation. -/
theorem allCodes_perm (o : Iter) (hv : o.Valid) (b c : List (String × JVal)) :
    List.Perm (allCodesGo o b c) (allCodesGo idIter b c) := by
  refine (List.perm_ext_iff_of_nodup (allCodes_nodup o b c)
    (allCodes_nodup idIter b c)).mpr ?_
  intro a
  unfold allCodesGo
  rw [setFold_keys, setFold_keys, setFold_keys, setFold_keys,
    mem_setFold, mem_setFold, mem_setFold, mem_setFold]
  have hb := ((hv.2.1 b).map (fun kv : String × JVal => kv.1)).mem_iff (a := a)
  have hc := ((hv.2.1 c).map (fun kv : String × JVal => kv.1)).mem_iff (a := a)
  constructor
  · rintro ((h | h) | h)
    · exact Or.inl (Or.inl h)
    · exact Or.inl (Or.inr (hb.mp h))
    · exact Or.inr (hc.mp h)
  · rintro ((h | h) | h)
    · exact Or.inl (Or.inl h)
    · exact Or.inl (Or.inr (hb.mpr h))
    · exact Or.inr (hc.mpr h)

/-- `exitCodesDelta` is the per-code difference over the key union, in
iteration order. -/
theorem exitCodesDelta_eq_map (o : Iter) (hv : o.Valid)
    (b c : List (String × JVal)) :
    exitCodesDelta o b c =
      (o.strs (allCodesGo o b c)).map
        (fun cd => (cd, toInt (jget c cd) - toInt (jget b cd))) := by
  have hnd : (keysOf ((o.strs (allCodesGo o b c)).map
      (fun cd => (cd, toInt (jget c cd) - toInt (jget b cd))))).Nodup := by
    rw [keysOf_map_pair]
    exact ((hv.1 _).nodup_iff).mpr (allCodes_nodup o b c)
  have h0 : exitCodesDelta o b c =
      ((o.strs (allCodesGo o b c)).map
        (fun cd => (cd, toInt (jget c cd) - toInt (jget b cd)))).foldl
        (fun m kv => upsert m kv.1 kv.2) [] := by
    rw [List.foldl_map]
    rfl
  rw [h0, buildMap_nodup _ []
    (by
      intro kv _ hm
      simp [keysOf] at hm) hnd]
  simp

/-- Deltas under any valid oracle permute the canonical deltas. -/
theorem exitCodesDelta_perm (o : Iter) (hv : o.Valid)
    (b c : List (String × JVal)) :
    List.Perm (exitCodesDelta o b c) (exitCodesDelta idIter b c) := by
  rw [exitCodesDelta_eq_map o hv b c, exitCodesDelta_eq_map idIter idIter_valid b c]
  exact ((hv.1 _).trans (allCodes_perm o hv b c)).map _

/-- The delta keys are duplicate-free. -/
theorem exitCodesDelta_keys_nodup (o : Iter) (hv : o.Valid)
    (b c : List (String × JVal)) :
    (keysOf (exitCodesDelta o b c)).Nodup := by
  rw [exitCodesDelta_eq_map o hv b c, keysOf_map_pair]
  exact ((hv.1 _).nodup_iff).mpr (allCodes_nodup o b c)

/-- `formatExitCodesDelta` respects key-distinct permutations of its
input and is iteration-order independent. -/
theorem formatECDelta_congr (o : Iter) (hv : o.Valid)
    {d1 d2 : List (String × Int)} (hperm : List.Perm d1 d2)
    (hnd : (keysOf d1).Nodup) :
    formatExitCodesDelta o d1 = formatExitCodesDelta idIter d2 := by
  unfold formatExitCodesDelta
  have hkeys : insSort intLE ((o.ints d1).filterMap (fun kv => parseGoInt kv.1)) =
      insSort intLE ((idIter.ints d2).filterMap (fun kv => parseGoInt kv.1)) :=
    insSort_perm_eq intLE intLE_total intLE_trans intLE_anti
      (((hv.2.2.1 d1).trans hperm).filterMap (fun kv => parseGoInt kv.1))
  rw [hkeys]
  have hfun : (fun (k : Int) (acc : List String) =>
      let v := (d1.lookup (toString k)).getD 0
      if v ≠ 0 then
        (toString k ++ ":" ++ (if 0 < v then "+" else "") ++ toString v) :: acc
      else acc) =
      (fun (k : Int) (acc : List String) =>
      let v := (d2.lookup (toString k)).getD 0
      if v ≠ 0 then
        (toString k ++ ":" ++ (if 0 < v then "+" else "") ++ toString v) :: acc
      else acc) := by
    funext k acc
    rw [lookup_perm hperm hnd (toString k)]
  rw [hfun]

/-- Two prefixes of one string are comparable. -/
theorem prefixComparable {s a b : String}
    (ha : hasPrefixGo s a = true) (hb : hasPrefixGo s b = true) :
    a.data.isPrefixOf b.data = true ∨ b.data.isPrefixOf a.data = true := by
  unfold hasPrefixGo at ha hb
  rw [ List.isPrefixOf_iff_prefix] at ha hb
  rcases List.prefix_or_prefix_of_prefix ha hb with h | h
  · exact Or.inl (by rw [ List.isPrefixOf_iff_prefix]; exact h)
  · exact Or.inr (by rw [ List.isPrefixOf_iff_prefix]; exact h)

/-- At most one entry of the topic table matches any probe. -/
theorem probeTopicTbl_unique (s : String) :
    ∀ x ∈ probeTopicTbl, ∀ y ∈ probeTopicTbl,
      hasPrefixGo s x.1 = true → hasPrefixGo s y.1 = true → x = y := by
  intro x hx y hy hxs hys
  by_cases hxy : x = y
  · exact hxy
  · exfalso
    rcases prefixComparable hxs hys with h | h <;>
      (fin_cases hx <;> fin_cases hy <;>
        first
          | exact hxy rfl
          | exact absurd h (by decide))

/-- `find?` is order-independent when at most one element matches. -/
theorem find_unique_perm {α : Type} (p : α → Bool) {l1 l2 : List α}
    (hperm : List.Perm l1 l2)
    (huniq : ∀ x ∈ l1, ∀ y ∈ l1, p x = true → p y = true → x = y) :
    l1.find? p = l2.find? p := by
  cases h1 : l1.find? p with
  | none =>
    rw [List.find?_eq_none] at h1
    exact (List.find?_eq_none.mpr (fun x hx => h1 x (hperm.mem_iff.mpr hx))).symm
  | some x =>
    have hpx := List.find?_some h1
    have hxmem := List.mem_of_find?_eq_some h1
    cases h2 : l2.find? p with
    | none =>
      rw [List.find?_eq_none] at h2
      exact absurd hpx (h2 x (hperm.mem_iff.mp hxmem))
    | some y =>
      have hpy := List.find?_some h2
      have hymem := List.mem_of_find?_eq_some h2
      rw [huniq x hxmem y (hperm.mem_iff.mpr hymem) hpx hpy]

/-- `ProbeTopic` is independent of the table iteration order. -/
theorem probeTopic_inv (o : Iter) (hv : o.Valid) (p : String) :
    ProbeTopic o p = ProbeTopic idIter p := by
  unfold ProbeTopic
  rw [find_unique_perm (fun pr => hasPrefixGo p pr.1) (hv.2.2.2 probeTopicTbl)
    (fun x hx y hy hpx hpy =>
      probeTopicTbl_unique p x ((hv.2.2.2 probeTopicTbl).mem_iff.mp hx)
        y ((hv.2.2.2 probeTopicTbl).mem_iff.mp hy) hpx hpy)]
  rfl

/-- Entry-format invariance: new entries. -/
theorem formatProbeEntryNew_inv (o : Iter) (hv : o.Valid) (p : String) (it : Row) :
    formatProbeEntryNew o p it = formatProbeEntryNew idIter p it := by
  simp only [formatProbeEntryNew]
  rw [formatExitCodes_inv o hv, expectedSuffix_inv o hv]

/-- Entry-format invariance: resolved entries. -/
theorem formatProbeEntryResolved_inv (o : Iter) (hv : o.Valid) (p : String)
    (it : Row) :
    formatProbeEntryResolved o p it = formatProbeEntryResolved idIter p it := by
  simp only [formatProbeEntryResolved]
  rw [formatExitCodes_inv o hv, expectedSuffix_inv o hv]

/-- Entry-format invariance: changed entries. -/
theorem formatProbeEntryChanged_inv (o : Iter) (hv : o.Valid) (p : String)
    (bIt cIt : Row) :
    formatProbeEntryChanged o p bIt cIt = formatProbeEntryChanged idIter p bIt cIt := by
  simp only [formatProbeEntryChanged]
  rw [formatECDelta_congr o hv
      (exitCodesDelta_perm o hv (getMapGo bIt "exit_codes") (getMapGo cIt "exit_codes"))
      (exitCodesDelta_keys_nodup o hv _ _),
    expectedSuffix_inv o hv]

/-- Entry-format invariance, per entry. -/
theorem fmtEntryLine_inv (o : Iter) (hv : o.Valid) (e : PEntry) :
    fmtEntryLine o e = fmtEntryLine idIter e := by
  unfold fmtEntryLine
  split
  · exact formatProbeEntryNew_inv o hv _ _
  · exact formatProbeEntryResolved_inv o hv _ _
  · exact formatProbeEntryChanged_inv o hv _ _ _

/-- Antisymmetry of the probe sort-key comparison. -/
theorem probeKeyLE_anti (k1 k2 : Int × Int × String)
    (h12 : probeKeyLE k1 k2 = true) (h21 : probeKeyLE k2 k1 = true) : k1 = k2 := by
  rcases k1 with ⟨a1, b1, c1⟩
  rcases k2 with ⟨a2, b2, c2⟩
  simp only [probeKeyLE, strLE, Bool.or_eq_true, Bool.and_eq_true,
    decide_eq_true_eq, beq_iff_eq] at h12 h21
  rcases h12 with h12 | ⟨e12, h12 | ⟨f12, h12⟩⟩ <;>
    rcases h21 with h21 | ⟨e21, h21 | ⟨f21, h21⟩⟩ <;>
    first
      | omega
      | (subst e12; subst f12; rw [le_antisymm h12 h21])

/-- Antisymmetry of the per-status probe comparison on probe names. -/
theorem sortKeyLE_anti (st a b : String)
    (h1 : probeKeyLE (probeSortKey a st) (probeSortKey b st) = true)
    (h2 : probeKeyLE (probeSortKey b st) (probeSortKey a st) = true) : a = b :=
  congrArg (fun k => k.2.2) (probeKeyLE_anti _ _ h1 h2)

/-- `sortProbes` maps permuted inputs to the same sorted list. -/
theorem sortProbes_perm_eq (st : String) {l1 l2 : List String}
    (h : List.Perm l1 l2) : sortProbes st l1 = sortProbes st l2 :=
  insSort_perm_eq (fun a b => probeKeyLE (probeSortKey a st) (probeSortKey b st))
    (fun a b => probeKeyLE_total _ _)
    (fun a b c => probeKeyLE_trans _ _ _) (sortKeyLE_anti st) h

/-- Structural-recursion form of the `probesIndex` fold. -/
def probesIndexF : List JVal → List (String × Row) → List (String × Row)
  | [], m => m
  | JVal.obj row :: t, m =>
    probesIndexF t
      (match row.lookup "probe" with
        | some (JVal.str p) => upsert m p row
        | _ => m)
  | _ :: t, m => probesIndexF t m

/-- The structural form agrees with the fold. -/
theorem probesIndexF_eq :
    ∀ (items : List JVal) (m : List (String × Row)),
      probesIndexF items m =
        items.foldl
          (fun m it =>
            match it with
            | JVal.obj row =>
              match row.lookup "probe" with
              | some (JVal.str p) => upsert m p row
              | _ => m
            | _ => m) m
  | [], _ => rfl
  | JVal.null :: t, m => probesIndexF_eq t m
  | JVal.bool _ :: t, m => probesIndexF_eq t m
  | JVal.num _ :: t, m => probesIndexF_eq t m
  | JVal.str _ :: t, m => probesIndexF_eq t m
  | JVal.arr _ :: t, m => probesIndexF_eq t m
  | JVal.obj row :: t, m => probesIndexF_eq t _

/-- `probesIndex` as the structural fold. -/
theorem probesIndex_eq_F (items : List JVal) :
    probesIndex items = probesIndexF items [] :=
  (probesIndexF_eq items []).symm

/-- Every value stored by the indexing fold comes from the accumulator or
appears as an object in the item list. -/
theorem probesIndexF_lookup :
    ∀ (items : List JVal) (m : List (String × Row)) (q : String) (r : Row),
      (probesIndexF items m).lookup q = some r →
      m.lookup q = some r ∨ JVal.obj r ∈ items
  | [], _, _, _, h => Or.inl h
  | JVal.null :: t, m, q, r, h => by
    rcases probesIndexF_lookup t m q r h with h1 | h1
    · exact Or.inl h1
    · exact Or.inr (List.mem_cons_of_mem _ h1)
  | JVal.bool _ :: t, m, q, r, h => by
    rcases probesIndexF_lookup t m q r h with h1 | h1
    · exact Or.inl h1
    · exact Or.inr (List.mem_cons_of_mem _ h1)
  | JVal.num _ :: t, m, q, r, h => by
    rcases probesIndexF_lookup t m q r h with h1 | h1
    · exact Or.inl h1
    · exact Or.inr (List.mem_cons_of_mem _ h1)
  | JVal.str _ :: t, m, q, r, h => by
    rcases probesIndexF_lookup t m q r h with h1 | h1
    · exact Or.inl h1
    · exact Or.inr (List.mem_cons_of_mem _ h1)
  | JVal.arr _ :: t, m, q, r, h => by
    rcases probesIndexF_lookup t m q r h with h1 | h1
    · exact Or.inl h1
    · exact Or.inr (List.mem_cons_of_mem _ h1)
  | JVal.obj row :: t, m, q, r, h => by
    unfold probesIndexF at h
    rcases hlp : row.lookup "probe" with _ | pv
    · simp only [hlp] at h
      rcases probesIndexF_lookup t m q r h with h1 | h1
      · exact Or.inl h1
      · exact Or.inr (List.mem_cons_of_mem _ h1)
    · rcases pv with _ | b | n | s | xs | fs
      case str =>
        simp only [hlp] at h
        rcases probesIndexF_lookup t (upsert m s row) q r h with h1 | h1
        · rw [lookup_upsert] at h1
          by_cases hq : q = s
          · rw [if_pos hq] at h1
            injection h1 with h2
            rw [← h2]
            exact Or.inr (List.mem_cons_self _ _)
          · rw [if_neg hq] at h1
            exact Or.inl h1
        · exact Or.inr (List.mem_cons_of_mem _ h1)
      all_goals
        simp only [hlp] at h
        rcases probesIndexF_lookup t m q r h with h1 | h1
        · exact Or.inl h1
        · exact Or.inr (List.mem_cons_of_mem _ h1)

/-- Injective-parse proviso for a summary record: every item's
`exit_codes` map has pairwise distinct parsed integer keys. -/
def ItemsInjOf (pf : Option Row) : Prop :=
  ∀ r : Row, JVal.obj r ∈ getSliceGo pf "items" → InjParse (getMapGo r "exit_codes")

/-- Under the proviso, every indexed item satisfies `InjParse`. -/
theorem probesIndex_lookup_inj (pf : Option Row) (hinj : ItemsInjOf pf)
    (p : String) (r : Row)
    (h : (probesIndex (getSliceGo pf "items")).lookup p = some r) :
    InjParse (getMapGo r "exit_codes") := by
  rw [probesIndex_eq_F] at h
  rcases probesIndexF_lookup _ [] p r h with h1 | h1
  · simp [List.lookup] at h1
  · exact hinj r h1

/-- The built entry list does not depend on the iteration order, given
valid oracles and the injective-parse proviso on both records. -/
theorem buildEntries_inv (o : Iter) (hv : o.Valid) (basePF currPF : Option Row)
    (hb : ItemsInjOf basePF) (hc : ItemsInjOf currPF) :
    buildProbeFailureEntries o basePF currPF =
      buildProbeFailureEntries idIter basePF currPF := by
  simp only [buildProbeFailureEntries]
  set bP := probesIndex (getSliceGo basePF "items") with hbPdef
  set cP := probesIndex (getSliceGo currPF "items") with hcPdef
  have h1 : sortProbes "new" ((o.strs (keysOf cP)).filter (fun p => !(hasKeyR bP p))) =
      sortProbes "new" ((idIter.strs (keysOf cP)).filter (fun p => !(hasKeyR bP p))) :=
    sortProbes_perm_eq "new" ((hv.1 _).filter _)
  have h2 : sortProbes "resolved" ((o.strs (keysOf bP)).filter (fun p => !(hasKeyR cP p))) =
      sortProbes "resolved" ((idIter.strs (keysOf bP)).filter (fun p => !(hasKeyR cP p))) :=
    sortProbes_perm_eq "resolved" ((hv.1 _).filter _)
  have hchf : (o.strs (keysOf bP)).filter
        (fun p => hasKeyR cP p &&
          probeFailureIsChanged o p (bP.lookup p) (cP.lookup p)) =
      (o.strs (keysOf bP)).filter
        (fun p => hasKeyR cP p &&
          probeFailureIsChanged idIter p (bP.lookup p) (cP.lookup p)) :=
    List.filter_congr (fun p _ => by
      rw [probeChanged_inv o hv p (bP.lookup p) (cP.lookup p)
        (fun r h => probesIndex_lookup_inj basePF hb p r h)
        (fun r h => probesIndex_lookup_inj currPF hc p r h)])
  have h3 : sortProbes "changed" ((o.strs (keysOf bP)).filter
        (fun p => hasKeyR cP p &&
          probeFailureIsChanged idIter p (bP.lookup p) (cP.lookup p))) =
      sortProbes "changed" ((idIter.strs (keysOf bP)).filter
        (fun p => hasKeyR cP p &&
          probeFailureIsChanged idIter p (bP.lookup p) (cP.lookup p))) :=
    sortProbes_perm_eq "changed" ((hv.1 _).filter _)
  rw [h1, h2, hchf, h3]

/-- `topicLE` is total. -/
theorem topicLE_total (a b : String) : topicLE a b = true ∨ topicLE b a = true := by
  simp only [topicLE, strLE, Bool.or_eq_true, Bool.and_eq_true,
    decide_eq_true_eq, beq_iff_eq]
  rcases lt_trichotomy (topicSortKey a) (topicSortKey b) with h | h | h
  · exact Or.inl (Or.inl h)
  · rcases le_total a b with h2 | h2
    · exact Or.inl (Or.inr ⟨h, h2⟩)
    · exact Or.inr (Or.inr ⟨h.symm, h2⟩)
  · exact Or.inr (Or.inl h)

/-- `topicLE` is transitive. -/
theorem topicLE_trans (a b c : String) (h1 : topicLE a b = true)
    (h2 : topicLE b c = true) : topicLE a c = true := by
  simp only [topicLE, strLE, Bool.or_eq_true, Bool.and_eq_true,
    decide_eq_true_eq, beq_iff_eq] at h1 h2 ⊢
  rcases h1 with h1 | ⟨e1, h1⟩
  · rcases h2 with h2 | ⟨e2, _⟩
    · exact Or.inl (h1.trans h2)
    · exact Or.inl (e2 ▸ h1)
  · rcases h2 with h2 | ⟨e2, h2⟩
    · exact Or.inl (e1 ▸ h2)
    · exact Or.inr ⟨e1.trans e2, h1.trans h2⟩

/-- `topicLE` is antisymmetric. -/
theorem topicLE_anti (a b : String) (h1 : topicLE a b = true)
    (h2 : topicLE b a = true) : a = b := by
  simp only [topicLE, strLE, Bool.or_eq_true, Bool.and_eq_true,
    decide_eq_true_eq, beq_iff_eq] at h1 h2
  rcases h1 with h1 | ⟨e1, h1⟩
  · rcases h2 with h2 | ⟨e2, _⟩
    · exact absurd (h1.trans h2) (lt_irrefl _)
    · exact absurd (e2 ▸ h1) (lt_irrefl _)
  · rcases h2 with h2 | ⟨e2, h2⟩
    · exact absurd (e1 ▸ h2) (lt_irrefl _)
    · exact le_antisymm h1 h2

/-- `emitNewWarnings` maps permuted inputs to the same output. -/
theorem emitNewWarnings_perm {l1 l2 : List String} (h : List.Perm l1 l2) :
    emitNewWarnings l1 = emitNewWarnings l2 := by
  unfold emitNewWarnings
  rw [perm_isEmpty h, insSort_perm_eq strLE strLE_total strLE_trans strLE_anti h]

/-- The rendered probe-failures section does not depend on the iteration
order, given a valid oracle and the injective-parse proviso. -/
theorem emitPF_inv (o : Iter) (hv : o.Valid) (basePF currPF : Option Row)
    (hb : ItemsInjOf basePF) (hc : ItemsInjOf currPF) :
    emitProbeFailuresDelta o basePF currPF =
      emitProbeFailuresDelta idIter basePF currPF := by
  have hfe : fmtEntryLine o = fmtEntryLine idIter := funext (fmtEntryLine_inv o hv)
  have htf : (fun (m : List (String × List PEntry)) (e : PEntry) =>
      appendAt m (ProbeTopic o e.probe) e) =
      (fun m e => appendAt m (ProbeTopic idIter e.probe) e) := by
    funext m e
    rw [probeTopic_inv o hv e.probe]
  simp only [emitProbeFailuresDelta]
  rw [buildEntries_inv o hv basePF currPF hb hc, hfe, htf]
  set entries := buildProbeFailureEntries idIter basePF currPF with hent
  set BT := entries.foldl (fun m e => appendAt m (ProbeTopic idIter e.probe) e) []
    with hbt
  rw [insSort_perm_eq topicLE topicLE_total topicLE_trans topicLE_anti
    (show List.Perm (o.strs (keysOf BT)) (idIter.strs (keysOf BT)) from hv.1 _)]

/-- C9: with a valid iteration-order oracle and the injective-parse
proviso — in both `probe_failures_summary` records, every item's
`exit_codes` map has pairwise distinct parsed integer keys — the full
run output (all lines and the boolean result) is independent of the
oracle, i.e. equal to the canonical insertion-order run: no
map-iteration order leaks into the output. -/
theorem C9_theorem (o : Iter) (hv : o.Valid) (b c : List Row)
    (hb : ItemsInjOf ((GroupByType b).lookup "probe_failures_summary"))
    (hc : ItemsInjOf ((GroupByType c).lookup "probe_failures_summary")) :
    RunWith o b c = RunWith idIter b c := by
  simp only [RunWith]
  rw [emitPF_inv o hv _ _ hb hc,
    emitNewWarnings_perm ((hv.1 (CollectWarningCodes c)).filter
      (fun x => !((CollectWarningCodes b).contains x)))]
  rfl

/-- The all-reversing iteration-order oracle. -/
def revIter : Iter :=
  ⟨List.reverse, List.reverse, List.reverse, List.reverse⟩

/-- Reversal is a permutation, so `revIter` is a possible Go iteration
order. -/
theorem revIter_valid : revIter.Valid :=
  ⟨fun l => l.reverse_perm, fun l => l.reverse_perm,
   fun l => l.reverse_perm, fun l => l.reverse_perm⟩

/-- A `probe_failures_summary` record whose single item has the
duplicate-parsing exit-code keys `"1"` and `"01"`; the count of key
`"1"` is the argument. -/
def c9Rec (v1 : Int) : Row :=
  [("type", JVal.str "probe_failures_summary"),
   ("items", JVal.arr [JVal.obj
     [("probe", JVal.str "alpha.test"), ("count", JVal.num (Qi 5)),
      ("exit_codes", JVal.obj
        [("1", JVal.num (Qi v1)), ("01", JVal.num (Qi 9))])]])]

/-- C9 counterexample: on records whose exit-code keys `"1"` and `"01"`
parse to the same integer, the normalization overwrite makes the result
depend on the map iteration order — the reversed order reports a delta
where the insertion order reports none, so two invocations of `Run` are
not output-identical. -/
theorem C9_counterexample :
    revIter.Valid ∧
      (RunWith revIter [c9Rec 7] [c9Rec 9]).2 = true ∧
      (RunWith idIter [c9Rec 7] [c9Rec 9]).2 = false :=
  ⟨revIter_valid, rfl, rfl⟩

/-- A record whose single item has distinct parsed exit-code keys. -/
def c9wRec : Row :=
  [("type", JVal.str "probe_failures_summary"),
   ("items", JVal.arr [JVal.obj
     [("probe", JVal.str "alpha.test"), ("count", JVal.num (Qi 5)),
      ("exit_codes", JVal.obj
        [("1", JVal.num (Qi 7)), ("2", JVal.num (Qi 9))])]])]

/-- The witness record satisfies the injective-parse proviso. -/
theorem c9w_inj :
    ItemsInjOf ((GroupByType [c9wRec]).lookup "probe_failures_summary") := by
  intro r hr
  have hs : getSliceGo ((GroupByType [c9wRec]).lookup "probe_failures_summary")
      "items" =
      [JVal.obj [("probe", JVal.str "alpha.test"), ("count", JVal.num (Qi 5)),
        ("exit_codes", JVal.obj
          [("1", JVal.num (Qi 7)), ("2", JVal.num (Qi 9))])]] := rfl
  rw [hs] at hr
  have h2 := List.mem_singleton.mp hr
  injection h2 with h3
  rw [h3]
  unfold InjParse
  decide

/-- C9 witness: the oracle-independence theorem applied at the
reversing oracle and a concrete record pair satisfying the proviso. -/
theorem C9_witness :
    revIter.Valid ∧
      ItemsInjOf ((GroupByType [c9wRec]).lookup "probe_failures_summary") ∧
      RunWith revIter [c9wRec] [c9wRec] = RunWith idIter [c9wRec] [c9wRec] :=
  ⟨revIter_valid, c9w_inj,
    C9_theorem revIter revIter_valid [c9wRec] [c9wRec] c9w_inj c9w_inj⟩
